import Mathlib

/-!
# Verification of the rudiweb document-tree model, markup parser and pipeline

A shallow embedding of the core of `rudiweb` (`src/rudiweb/lib/htmlwriter.py`,
`src/rudiweb/main.py`, and the `bootstrap/decorate.py` transformer), together
with proofs about it.

Modelling conventions:
* Python strings are `String` (internally processed as `List Char`).
* A Python `set` of strings is a `Finset String`; since CPython set iteration
  order is unspecified (hash-randomized), every place the code iterates over a
  set is parametrized by a `SetEnum` oracle supplying an arbitrary valid
  enumeration, and theorems quantify over all oracles.
* Python `dict`s (which preserve insertion order) are association lists.
* Code that can raise returns `Except String α`.
-/

namespace Rudi

/-! ## HTML escaping (`html.escape` / `html.unescape`)

`escape` replaces `&`, `<`, `>` and, with `quote=True`, also `"` and `'`,
exactly as `html.escape` does.  `unescape` is the fragment of `html.unescape`
that decodes the five entity references `escape` can emit (applied in this
development only to strings produced by `escape`, or to strings without `&`,
on which it agrees with the stdlib function). -/

def escChar (q : Bool) (c : Char) : List Char :=
  if c = '&' then ['&', 'a', 'm', 'p', ';']
  else if c = '<' then ['&', 'l', 't', ';']
  else if c = '>' then ['&', 'g', 't', ';']
  else if q && c = '"' then ['&', 'q', 'u', 'o', 't', ';']
  else if q && c = '\'' then ['&', '#', 'x', '2', '7', ';']
  else [c]

def escapeL (q : Bool) : List Char → List Char
  | [] => []
  | c :: rest => escChar q c ++ escapeL q rest

/-- `html.escape(s, quote=q)`. -/
def escape (s : String) (q : Bool) : String :=
  ⟨escapeL q s.data⟩

def unescapeL : List Char → List Char
  | [] => []
  | c :: rest =>
    if c = '&' then
      match rest with
      | 'a' :: 'm' :: 'p' :: ';' :: rest' => '&' :: unescapeL rest'
      | 'l' :: 't' :: ';' :: rest' => '<' :: unescapeL rest'
      | 'g' :: 't' :: ';' :: rest' => '>' :: unescapeL rest'
      | 'q' :: 'u' :: 'o' :: 't' :: ';' :: rest' => '"' :: unescapeL rest'
      | '#' :: 'x' :: '2' :: '7' :: ';' :: rest' => '\'' :: unescapeL rest'
      | r => c :: unescapeL r
    else c :: unescapeL rest

/-- `html.unescape(s)` (restricted to the entities `escape` emits). -/
def unescape (s : String) : String :=
  ⟨unescapeL s.data⟩

/-- Does `pat` occur at the head of the second list? -/
def leadsWith : List Char → List Char → Bool
  | [], _ => true
  | _ :: _, [] => false
  | p :: ps, c :: cs => p == c && leadsWith ps cs

/-- Does `pat` occur anywhere in the list? -/
def occursInL (pat : List Char) : List Char → Bool
  | [] => pat.isEmpty
  | c :: rest => leadsWith pat (c :: rest) || occursInL pat rest

/-- Python `pat in s` (substring test). -/
def strContains (s pat : String) : Bool :=
  occursInL pat.data s.data

/-- Python `" ".join(l)`. -/
def joinSpace : List String → String
  | [] => ""
  | [x] => x
  | x :: rest => x ++ " " ++ joinSpace rest

/-! ## Fixed tag classification tables (`htmlwriter.py`) -/

/-- `VOID_ELEMENTS`: elements that do not take a closing tag. -/
def VOID_ELEMENTS : List String :=
  ["area", "base", "br", "col", "embed", "hr", "img", "input", "keygen",
   "link", "meta", "param", "source", "track", "wbr"]

/-- `NL_ELEMENTS`: render with newline after closing tag. -/
def NL_ELEMENTS : List String :=
  ["body", "br", "div", "hr", "p", "td", "th", "thead", "tbody", "tr"]

/-- `is_void(tag)`. -/
def is_void (tag : String) : Bool :=
  VOID_ELEMENTS.contains tag

/-- The newline suffix `nl` computed in `Element.render`. -/
def nlSuffix (tag : String) : String :=
  if NL_ELEMENTS.contains tag then "\n" else ""

/-! ## A computable linear order on strings

Used only to build concrete set-iteration oracles (below); kernel-computable,
unlike the `LinearOrder String` instance. -/

def lexLeB : List Char → List Char → Bool
  | [], _ => true
  | _ :: _, [] => false
  | a :: as, b :: bs => if a = b then lexLeB as bs else Nat.ble a.toNat b.toNat

def strLeB (x y : String) : Bool :=
  lexLeB x.data y.data

/-- The order as a decidable relation. -/
def leP (x y : String) : Prop := strLeB x y = true

instance : DecidableRel leP := fun x y => inferInstanceAs (Decidable (_ = true))

theorem char_toNat_inj {a b : Char} (h : a.toNat = b.toNat) : a = b := by
  rcases a with ⟨⟨a, ha⟩, _⟩
  rcases b with ⟨⟨b, hb⟩, _⟩
  simp only [Char.toNat, UInt32.toNat] at h
  simp_all

theorem lexLeB_total (a b : List Char) : lexLeB a b = true ∨ lexLeB b a = true := by
  induction a generalizing b with
  | nil => left; rfl
  | cons x xs ih =>
    cases b with
    | nil => right; rfl
    | cons y ys =>
      by_cases hxy : x = y
      · subst hxy
        simpa [lexLeB] using ih ys
      · have hyx : y ≠ x := fun h => hxy h.symm
        rcases Nat.le_total x.toNat y.toNat with h | h
        · left; simp [lexLeB, hxy, Nat.ble_eq, h]
        · right; simp [lexLeB, hyx, Nat.ble_eq, h]

theorem lexLeB_antisymm {a b : List Char} (h1 : lexLeB a b = true)
    (h2 : lexLeB b a = true) : a = b := by
  induction a generalizing b with
  | nil =>
    cases b with
    | nil => rfl
    | cons y ys => simp [lexLeB] at h2
  | cons x xs ih =>
    cases b with
    | nil => simp [lexLeB] at h1
    | cons y ys =>
      by_cases hxy : x = y
      · subst hxy
        simp only [lexLeB, if_pos rfl] at h1 h2
        rw [ih h1 h2]
      · have hyx : y ≠ x := fun h => hxy h.symm
        simp only [lexLeB, if_neg hxy, Nat.ble_eq] at h1
        simp only [lexLeB, if_neg hyx, Nat.ble_eq] at h2
        exact absurd (char_toNat_inj (Nat.le_antisymm h1 h2)) hxy

theorem lexLeB_trans {a b c : List Char} (h1 : lexLeB a b = true)
    (h2 : lexLeB b c = true) : lexLeB a c = true := by
  induction a generalizing b c with
  | nil => rfl
  | cons x xs ih =>
    cases b with
    | nil => simp [lexLeB] at h1
    | cons y ys =>
      cases c with
      | nil => simp [lexLeB] at h2
      | cons z zs =>
        by_cases hxy : x = y <;> by_cases hyz : y = z
        · subst hxy; subst hyz
          simp only [lexLeB, if_pos rfl] at h1 h2 ⊢
          exact ih h1 h2
        · subst hxy
          simp only [lexLeB, if_pos rfl] at h1
          simpa [lexLeB, hyz] using h2
        · subst hyz
          simp only [lexLeB, if_pos rfl] at h2
          simpa [lexLeB, hxy] using h1
        · simp only [lexLeB, if_neg hxy, Nat.ble_eq] at h1
          simp only [lexLeB, if_neg hyz, Nat.ble_eq] at h2
          by_cases hxz : x = z
          · subst hxz
            exact absurd (char_toNat_inj (Nat.le_antisymm h1 h2)) hxy
          · simp [lexLeB, hxz, Nat.ble_eq]
            exact Nat.le_trans h1 h2

instance : IsTotal String leP :=
  ⟨fun x y => lexLeB_total x.data y.data⟩

instance : IsTrans String leP :=
  ⟨fun _ _ _ h1 h2 => lexLeB_trans h1 h2⟩

theorem strData_inj {x y : String} (h : x.data = y.data) : x = y := by
  cases x; cases y; exact congrArg String.mk h

instance : IsAntisymm String leP :=
  ⟨fun _ _ h1 h2 => strData_inj (lexLeB_antisymm h1 h2)⟩

/-- Sorting a multiset of strings: well-defined because any two
permutation-equal lists have the same insertion sort. -/
def sortM (m : Multiset String) : List String :=
  Quot.liftOn m (fun l => List.insertionSort leP l) (fun l l' h => by
    refine List.eq_of_perm_of_sorted ?_ (List.sorted_insertionSort leP l)
      (List.sorted_insertionSort leP l')
    exact ((List.perm_insertionSort leP l).trans h).trans
      (List.perm_insertionSort leP l').symm)

theorem sortM_coe (l : List String) :
    sortM (l : Multiset String) = List.insertionSort leP l := rfl

theorem sortM_coe_perm (m : Multiset String) : (sortM m : Multiset String) = m :=
  Quot.inductionOn m (fun l => Multiset.coe_eq_coe.mpr (List.perm_insertionSort leP l))

theorem sortM_nodup (s : Finset String) : (sortM s.val).Nodup := by
  have := s.nodup
  rw [← sortM_coe_perm s.val] at this
  exact Multiset.coe_nodup.mp this

theorem sortM_mem (s : Finset String) (a : String) : a ∈ sortM s.val ↔ a ∈ s := by
  rw [← Multiset.mem_coe, sortM_coe_perm s.val]
  exact Iff.rfl

/-! ## Set-iteration oracles

CPython iterates sets in an unspecified (hash-dependent) order.  A `SetEnum`
is one possible iteration behaviour: for each set it yields some duplicate-free
enumeration of exactly its elements.  Rendering is parametrized by a `SetEnum`;
universally quantified theorems therefore hold for every possible iteration
order, and a counterexample may pick a concrete adversarial order. -/

structure SetEnum where
  enum : Finset String → List String
  nodup : ∀ s, (enum s).Nodup
  mem : ∀ s a, a ∈ enum s ↔ a ∈ s

/-- Sorted iteration order: one concrete valid `SetEnum`. -/
def canonEnum : SetEnum where
  enum s := sortM s.val
  nodup := sortM_nodup
  mem := sortM_mem

/-- Reverse-sorted iteration order: another concrete valid `SetEnum`. -/
def revEnum : SetEnum where
  enum s := (sortM s.val).reverse
  nodup s := List.nodup_reverse.mpr (sortM_nodup s)
  mem s a := by rw [List.mem_reverse]; exact sortM_mem s a

theorem enum_empty (o : SetEnum) : o.enum ∅ = [] := by
  cases h : o.enum ∅ with
  | nil => rfl
  | cons a l =>
    have := (o.mem ∅ a).mp (by simp [h])
    simp at this

/-- A singleton set enumerates as the one-element list. -/
theorem enum_singleton (o : SetEnum) (a : String) : o.enum {a} = [a] := by
  have hmem := o.mem {a}
  have hnd := o.nodup {a}
  cases h : o.enum {a} with
  | nil =>
    have := (hmem a).mpr (by simp)
    simp [h] at this
  | cons b l =>
    have hb := (hmem b).mp (by simp [h])
    simp at hb
    subst hb
    cases l with
    | nil => rfl
    | cons c l' =>
      have hc := (hmem c).mp (by simp [h])
      simp at hc
      subst hc
      rw [h] at hnd
      simp at hnd

/-! ## `Attr`: element attribute (`htmlwriter.py`, class `Attr`)

`Attr.values` is a Python `set` of strings, modelled as a `Finset String`.
`update` filters falsy values (`filter(None, values)` drops empty strings).
The falsy-`None` case of `add` is represented by an `Option` argument. -/

structure Attr where
  name : String
  values : Finset String
deriving DecidableEq

/-- `Attr.add(v)`: add a value unless it is `None`. -/
def Attr.add (a : Attr) (v : Option String) : Attr :=
  match v with
  | none => a
  | some v => { a with values := insert v a.values }

/-- `Attr.update(values)`: union in the non-falsy values. -/
def Attr.update (a : Attr) (vs : List String) : Attr :=
  { a with values := a.values ∪ (vs.filter (· ≠ "")).toFinset }

/-- `Attr.clear()`. -/
def Attr.clear (a : Attr) : Attr :=
  { a with values := ∅ }

/-- `Attr.set(values)`: replace the values. -/
def Attr.setValues (a : Attr) (vs : List String) : Attr :=
  { a with values := vs.toFinset }

/-- `Attr(name, values)` (constructor: starts empty, then `update`). -/
def Attr.mk0 (name : String) (vs : List String) : Attr :=
  Attr.update ⟨name, ∅⟩ vs

/-- `Attr.render(extra)`: merge own values with `extra`'s, drop falsy values,
and emit `name="v1 v2 …"` with each value escaped, or the bare name when no
values remain.  The join order is the set-iteration order, supplied by the
`SetEnum` oracle. -/
def Attr.render (o : SetEnum) (a : Attr) (extra : Option Attr) : String :=
  let merged := match extra with
    | some e => a.values ∪ e.values
    | none => a.values
  let kept := merged.filter (· ≠ "")
  if kept = ∅ then a.name
  else a.name ++ "=\"" ++ joinSpace ((o.enum kept).map (fun v => escape v true)) ++ "\""

/-! ## Defaults registry (`htmlwriter.py`, class `Defaults`)

`tag2attrs` is a dict from tag to a dict from attribute name to `Attr`;
Python dicts preserve insertion order, so both levels are association lists
(with the invariant, maintained by the operations, that the key equals the
`Attr`'s name). -/

def lookupA (m : List (String × Attr)) (n : String) : Option Attr :=
  (m.find? (fun p => p.1 == n)).map (·.2)

def lookupTag (d : List (String × List (String × Attr))) (tag : String) :
    Option (List (String × Attr)) :=
  (d.find? (fun p => p.1 == tag)).map (·.2)

/-- `Defaults.get_attrs(tag)` — the *stateful* source behaviour:
`self.tag2attrs.setdefault(tag, {})` returns the existing dict for `tag`, or
inserts an empty dict (at the end, per dict insertion order) and returns it. -/
def Defaults.get_attrs (d : List (String × List (String × Attr))) (tag : String) :
    List (String × List (String × Attr)) × List (String × Attr) :=
  match lookupTag d tag with
  | some attrs => (d, attrs)
  | none => (d ++ [(tag, [])], [])

/-- The pure content view of the registry: the attribute dict a lookup of
`tag` yields (an absent tag reads as the empty dict). -/
def getAttrsD (d : List (String × List (String × Attr))) (tag : String) :
    List (String × Attr) :=
  (lookupTag d tag).getD []

/-- `Defaults.keys()`. -/
def Defaults.keys (d : List (String × List (String × Attr))) : List String :=
  d.map (·.1)

/-! ## Document tree (`htmlwriter.py`: `Text`, `Raw`, `Comment`, `Element`, `Root`)

An `Element` carries its tag, its attribute dict (name ↦ `Attr`), an optional
element-local `Defaults` override (`self.defaults`), and its ordered children.
Children form an `HForest` (isomorphic to a list; a separate inductive so that
the render functions are structurally recursive).  `Root` is a bare forest. -/

mutual

inductive HNode where
  | text (s : String)
  | raw (s : String)
  | comment (s : String)
  | element (tag : String) (attrs : List (String × Attr))
      (defaults : Option (List (String × List (String × Attr))))
      (children : HForest)

inductive HForest where
  | nil
  | cons (n : HNode) (rest : HForest)

end

def HForest.ofList : List HNode → HForest
  | [] => .nil
  | n :: rest => .cons n (HForest.ofList rest)

def HForest.append : HForest → HForest → HForest
  | .nil, g => g
  | .cons n rest, g => .cons n (rest.append g)

/-- `ParentNode.add(*children)` argument: a plain string (auto-wrapped as
`Text`) or a node.  This is the only implicit conversion. -/
inductive ChildArg where
  | str (s : String)
  | node (n : HNode)

def ChildArg.toNode : ChildArg → HNode
  | .str s => .text s
  | .node n => n

/-- `ParentNode.add(*children)`: appends each argument (strings wrapped as
`Text`) to the children; performs no validation and never fails. -/
def ParentNode.add (children : HForest) (args : List ChildArg) : HForest :=
  children.append (HForest.ofList (args.map ChildArg.toNode))

/-- `Text.render(writer, parent)`: raw inside a `script` element (rejecting
text that contains `"<script"`), HTML-escaped (quote=False) elsewhere.
`parentTag` is `some t` when the parent is an `Element` with tag `t`, and
`none` when the parent is the `Root` or `None`. -/
def Text.render (parentTag : Option String) (s : String) : Except String String :=
  if parentTag = some "script" then
    if strContains s "<script" then .error "bad <script> contents"
    else .ok s
  else .ok (escape s false)

/-- `Comment.render`. -/
def Comment.render (s : String) : String :=
  "<!-- " ++ escape s true ++ " -->"

/-- The attribute strings `attrsl` built in `Element.render`: iterate over the
set-union of own attribute names and default attribute names (set order given
by the oracle); for each name take the own attribute (with the default as
`extra`), or else the default alone. -/
def attrStrings (o : SetEnum) (attrs defattrs : List (String × Attr)) : List String :=
  (o.enum ((attrs.map (·.1)).toFinset ∪ (defattrs.map (·.1)).toFinset)).filterMap (fun an =>
    match lookupA attrs an, lookupA defattrs an with
    | some a, extra => some (Attr.render o a extra)
    | none, some e => some (Attr.render o e none)
    | none, none => none)

mutual

/-- `Element.render` (and the `render` of the other node kinds), with the
writer-level defaults registry `wd` read purely via `getAttrsD` (see
`renderNodeST` for the stateful `setdefault` behaviour and
`renderNodeST_extends` for how the two relate).  `parentTag` identifies the
parent element as in `Text.render`. -/
def renderNode (o : SetEnum) (wd : List (String × List (String × Attr)))
    (parentTag : Option String) : HNode → Except String String
  | .text s => Text.render parentTag s
  | .raw s => .ok s
  | .comment s => .ok (Comment.render s)
  | .element tag attrs defaults children =>
    let defattrs := getAttrsD (defaults.getD wd) tag
    let attrsl := attrStrings o attrs defattrs
    if is_void tag then
      .ok ("<" ++ tag ++ " " ++ joinSpace attrsl ++ ">" ++ nlSuffix tag)
    else
      match renderForest o wd (some tag) children with
      | .error e => .error e
      | .ok body =>
        .ok ("<" ++ tag ++ (if attrsl.isEmpty then "" else " ") ++ joinSpace attrsl
          ++ ">" ++ body ++ "</" ++ tag ++ ">" ++ nlSuffix tag)

/-- Concatenation of the children's rendered output (the child loops of
`Element.render` and `Root.render`); the first exception propagates. -/
def renderForest (o : SetEnum) (wd : List (String × List (String × Attr)))
    (parentTag : Option String) : HForest → Except String String
  | .nil => .ok ""
  | .cons n rest =>
    match renderNode o wd parentTag n with
    | .error e => .error e
    | .ok s =>
      match renderForest o wd parentTag rest with
      | .error e => .error e
      | .ok s' => .ok (s ++ s')

end

/-- `Root.render(writer, parent)`: concatenate the children, the `Root` itself
being the parent (not an `Element`, so `parentTag = none`). -/
def Root.render (o : SetEnum) (wd : List (String × List (String × Attr)))
    (children : HForest) : Except String String :=
  renderForest o wd none children

/-- The payload of a successful render (`""` for a raised exception); used to
phrase concrete observations. -/
def okOr (d : String) : Except String String → String
  | .ok s => s
  | .error _ => d

mutual

/-- The source `Element.render` with the *stateful* registry lookup threaded
explicitly: `Defaults.get_attrs` is `tag2attrs.setdefault(tag, {})`, so a
lookup of an absent tag inserts an empty entry into the registry.  When the
element carries a local `Defaults` override (`self.defaults or writer.defaults`),
the writer registry is neither read nor written for that element's own lookup
(the local object's `setdefault` mutation is internal to it). -/
def renderNodeST (o : SetEnum) (parentTag : Option String)
    (wd : List (String × List (String × Attr))) :
    HNode → Except String (String × List (String × List (String × Attr)))
  | .text s => (Text.render parentTag s).map (fun s' => (s', wd))
  | .raw s => .ok (s, wd)
  | .comment s => .ok (Comment.render s, wd)
  | .element tag attrs defaults children =>
    let step : List (String × List (String × Attr)) × List (String × Attr) :=
      match defaults with
      | some dl => (wd, (Defaults.get_attrs dl tag).2)
      | none => Defaults.get_attrs wd tag
    let attrsl := attrStrings o attrs step.2
    if is_void tag then
      .ok ("<" ++ tag ++ " " ++ joinSpace attrsl ++ ">" ++ nlSuffix tag, step.1)
    else
      match renderForestST o (some tag) step.1 children with
      | .error e => .error e
      | .ok (body, wd') =>
        .ok ("<" ++ tag ++ (if attrsl.isEmpty then "" else " ") ++ joinSpace attrsl
          ++ ">" ++ body ++ "</" ++ tag ++ ">" ++ nlSuffix tag, wd')

def renderForestST (o : SetEnum) (parentTag : Option String)
    (wd : List (String × List (String × Attr))) :
    HForest → Except String (String × List (String × List (String × Attr)))
  | .nil => .ok ("", wd)
  | .cons n rest =>
    match renderNodeST o parentTag wd n with
    | .error e => .error e
    | .ok (s, wd') =>
      match renderForestST o parentTag wd' rest with
      | .error e => .error e
      | .ok (s', wd'') => .ok (s ++ s', wd'')

end

example : renderNode canonEnum [] none
    (.element "span" [] none (.cons (.text "hi") .nil)) = .ok "<span>hi</span>" := by rfl

example : renderNode canonEnum [] none (.element "br" [] none .nil)
    = .ok "<br >\n" := by rfl

example : renderNode canonEnum [] none
      (.element "p" [("class", ⟨"class", {"b", "a"}⟩)] none (.cons (.text "x < y") .nil))
    = .ok "<p class=\"a b\">x &lt; y</p>\n" := by rfl

example : renderNode revEnum [] none
      (.element "p" [("class", ⟨"class", {"b", "a"}⟩)] none .nil)
    = .ok "<p class=\"b a\"></p>\n" := by rfl

/-! ## Markup parser (`htmlwriter.py`, class `HTMLParser`, over `html.parser`)

The stdlib tokenizer (`HTMLParser.goahead` with `convert_charrefs=True`) is
modelled for the non-CDATA fragment exercised here: start tags (the tag name
extracted and ASCII-lowercased, the attribute text skipped — the source's
`Element` matching disregards attributes), end tags, comments, and text runs
(on which charrefs are converted, i.e. `unescape` is applied once by the
tokenizer; the source's `handle_data`/`handle_comment` then call `unescape`
themselves).  The CDATA content mode entered for `script`/`style` elements is
not modelled; the claims settled against this parser exclude those tags. -/

inductive PTok where
  | stag (tag : String)
  | etag (tag : String)
  | chdata (s : String)
  | chcomment (s : String)
deriving DecidableEq

/-- ASCII lowercasing of a tag character (`str.lower` on ASCII letters). -/
def lowerC (c : Char) : Char :=
  if 65 ≤ c.toNat ∧ c.toNat ≤ 90 then Char.ofNat (c.toNat + 32) else c

/-- Characters that terminate a tag name (after its first character):
whitespace (space, tab, newline, carriage return, form feed), `/`, `>` and
the zero character. -/
def isTagNameChar (c : Char) : Bool :=
  !(c.toNat = 32 || c.toNat = 9 || c.toNat = 10 || c.toNat = 13 || c.toNat = 12
    || c.toNat = 47 || c.toNat = 62 || c.toNat = 0)

/-- Tag name from a `<`…`>` buffer: the leading name-character run, lowercased
(Python's `tagfind_tolerant` regex plus `tag.lower()`). -/
def tagNameOf (buf : List Char) : String :=
  ⟨(buf.takeWhile isTagNameChar).map lowerC⟩

/-- Scanner state, one character of lookahead at a time: accumulating a text
run (`data`), just seen `<` (`lt`), seen `<!` (`bang`), seen `<!-`
(`bangDash`), inside a start/end tag buffer, or inside a comment (`com`,
with `comD`/`comDD` recording one/two pending dashes that may begin the
`-->` terminator). -/
inductive ScanMode where
  | data (buf : List Char)
  | lt (buf : List Char)
  | bang (buf : List Char)
  | bangDash (buf : List Char)
  | stag (buf : List Char)
  | etag (buf : List Char)
  | com (buf : List Char)
  | comD (buf : List Char)
  | comDD (buf : List Char)

/-- Emit a pending (non-empty) text run. -/
def emitData (buf : List Char) (toks : List PTok) : List PTok :=
  if buf.isEmpty then toks else .chdata ⟨buf⟩ :: toks

/-- The tokenizer: a single pass over the input, as a character DFA.
Pending data is emitted when the `<` of a complete following construct is
seen; incomplete trailing constructs are dropped (the stdlib parser leaves
them buffered awaiting more input).  Declarations other than comments
(`<!…` not followed by `--`) are out of the modelled fragment (they are
read as a tag buffer here); the inputs of the settled claims never contain
them. -/
def scan : ScanMode → List Char → List PTok
  | .data buf, [] => emitData buf []
  | .data buf, c :: rest =>
    if c = '<' then scan (.lt buf) rest else scan (.data (buf ++ [c])) rest
  | .lt buf, [] => emitData buf []
  | .lt buf, c :: rest =>
    if c = '!' then scan (.bang buf) rest
    else if c = '/' then emitData buf (scan (.etag []) rest)
    else emitData buf (scan (.stag [c]) rest)
  | .bang buf, [] => emitData buf []
  | .bang buf, c :: rest =>
    if c = '-' then scan (.bangDash buf) rest
    else emitData buf (scan (.stag ['!', c]) rest)
  | .bangDash buf, [] => emitData buf []
  | .bangDash buf, c :: rest =>
    if c = '-' then emitData buf (scan (.com []) rest)
    else emitData buf (scan (.stag ['!', '-', c]) rest)
  | .stag _, [] => []
  | .stag tb, c :: rest =>
    if c = '>' then .stag (tagNameOf tb) :: scan (.data []) rest
    else scan (.stag (tb ++ [c])) rest
  | .etag _, [] => []
  | .etag tb, c :: rest =>
    if c = '>' then .etag (tagNameOf tb) :: scan (.data []) rest
    else scan (.etag (tb ++ [c])) rest
  | .com _, [] => []
  | .com cb, c :: rest =>
    if c = '-' then scan (.comD cb) rest else scan (.com (cb ++ [c])) rest
  | .comD _, [] => []
  | .comD cb, c :: rest =>
    if c = '-' then scan (.comDD cb) rest else scan (.com (cb ++ ['-', c])) rest
  | .comDD _, [] => []
  | .comDD cb, c :: rest =>
    if c = '>' then .chcomment ⟨cb⟩ :: scan (.data []) rest
    else if c = '-' then scan (.comDD (cb ++ ['-'])) rest
    else scan (.com (cb ++ ['-', '-', c])) rest

/-- Parse-tree node built by the repo's `HTMLParser` handlers.  `Element`
attributes are not retained: the source's node matching (`Element._match`)
compares tags only. -/
inductive PNode where
  | ptext (s : String)
  | pcomment (s : String)
  | pelem (tag : String) (children : List PNode)

/-- An open (started, not yet closed) element: `handle_starttag` pushes it on
`self.stack`; its children accumulate until it is popped. -/
structure BFrame where
  tag : String
  children : List PNode

/-- Parser state: the open-element stack (top first; the bottom `Root`
sentinel is represented by the empty stack) and the root's children. -/
structure BState where
  stack : List BFrame
  rootAcc : List PNode

/-- Append a finished node to the current container (`self.last.add(...)`). -/
def addPNode (n : PNode) : BState → BState
  | ⟨f :: fs, racc⟩ => ⟨{ f with children := f.children ++ [n] } :: fs, racc⟩
  | ⟨[], racc⟩ => ⟨[], racc ++ [n]⟩

/-- One handler dispatch:
* `handle_data`: charref-converted data, `unescape`d once more by the repo's
  handler, appended as text;
* `handle_comment`: content `unescape`d once, appended as a comment;
* `handle_starttag`: append an element; push it unless void;
* `handle_endtag`: if the stack top is the `Root` sentinel or the tag does
  not match the top, ignore the stray end tag (the state is unchanged);
  otherwise pop. -/
def buildStep (st : BState) (t : PTok) : BState :=
  match t with
  | .chdata s => addPNode (.ptext (unescape (unescape s))) st
  | .chcomment s => addPNode (.pcomment (unescape s)) st
  | .stag tag =>
    if is_void tag then addPNode (.pelem tag []) st
    else ⟨⟨tag, []⟩ :: st.stack, st.rootAcc⟩
  | .etag tag =>
    match st.stack with
    | [] => st
    | f :: fs => if tag = f.tag then addPNode (.pelem f.tag f.children) ⟨fs, st.rootAcc⟩ else st

def finalizeGo : List BFrame → PNode → List PNode → List PNode
  | [], n, racc => racc ++ [n]
  | f :: fs, n, racc => finalizeGo fs (.pelem f.tag (f.children ++ [n])) racc

/-- Read the tree out of a final state: elements left unclosed on the stack
were already added to their parents when started (`handle_starttag` mutates
`self.last` before pushing), so each remaining frame is wrapped and folded
into the frame below it. -/
def finalize : List BFrame → List PNode → List PNode
  | [], racc => racc
  | f :: fs, racc => finalizeGo fs (.pelem f.tag f.children) racc

/-- `HTMLParser().feed(s)` followed by `get_root()` and `is_valid()`:
the children of the resulting root, and well-formedness (`len(stack) == 1`,
i.e. only the `Root` sentinel remains). -/
def parseHTML (s : String) : List PNode × Bool :=
  let st := (scan (.data []) s.data).foldl buildStep ⟨[], []⟩
  (finalize st.stack st.rootAcc, st.stack.isEmpty)

mutual

/-- The parse image of a rendered writer node: what `parseHTML` gives back on
the restricted round-trip class.  Text keeps its payload; comments gain the
one-space padding `Comment.render` adds; elements keep tag and children
(attributes are not compared).  (`Raw` is excluded by the round-trip class;
its image is never used.) -/
def pviewN : HNode → PNode
  | .text s => .ptext s
  | .raw s => .ptext s
  | .comment s => .pcomment (" " ++ s ++ " ")
  | .element tag _ _ children => .pelem tag (pviewF children)

def pviewF : HForest → List PNode
  | .nil => []
  | .cons n rest => pviewN n :: pviewF rest

end

example : parseHTML "<div><span>text</div>"
    = ([.pelem "div" [.pelem "span" [.ptext "text"]]], false) := by rfl

example : parseHTML "<p>a &lt;&amp; b</p><!-- c -->"
    = ([.pelem "p" [.ptext "a <& b"], .pcomment " c "], true) := by rfl

example : parseHTML "<UL><li>x</li></ul>"
    = ([.pelem "ul" [.pelem "li" [.ptext "x"]]], true) := by rfl

/-! ## Transformer pipeline engine (`main.py`)

`RudiHandler.do_asis_response` / `do_decorated_response` run
`for transformer in transformers: hw.root = transformer.run(rudic, content, hw.root) or hw.root`
inside a `try` whose handler re-raises.  A transformer is a bound callable of
the request context, the raw content and the current root; returning `None`
(falsy) keeps the current root; a raised exception aborts the loop and
propagates unchanged. -/

/-- A bound transformer (`RudiTransformer.run`): `.ok none` models a `None`
return (tree unchanged), `.error e` a raised exception. -/
def Transformer (Ctx Cont E R : Type) : Type :=
  Ctx → Cont → R → Except E (Option R)

/-- The engine loop. -/
def runChain {Ctx Cont E R : Type} (ctx : Ctx) (content : Cont) :
    List (Transformer Ctx Cont E R) → R → Except E R
  | [], root => .ok root
  | t :: ts, root =>
    match t ctx content root with
    | .error e => .error e
    | .ok r? => runChain ctx content ts (r?.getD root)

/-- The tree threaded through a chain, assuming no transformer raises. -/
def chainFold {Ctx Cont E R : Type} (ctx : Ctx) (content : Cont)
    (ts : List (Transformer Ctx Cont E R)) (root : R) : R :=
  ts.foldl (fun r t =>
    match t ctx content r with
    | .ok (some r') => r'
    | _ => r) root

/-- No transformer of the chain raises, when run threaded from `root`. -/
def chainOk {Ctx Cont E R : Type} (ctx : Ctx) (content : Cont) :
    List (Transformer Ctx Cont E R) → R → Prop
  | [], _ => True
  | t :: ts, root =>
    (∃ r?, t ctx content root = .ok r?) ∧
      chainOk ctx content ts
        (match t ctx content root with
         | .ok (some r') => r'
         | _ => root)

/-! ## Content space transformer resolution (`main.py`, `RudiSpace`)

`ext2transformers` is a dict from extension to transformer list; `.get(ext, [])`
of a missing key and a present-but-empty list are indistinguishable here, so
the dict is modelled as a total function returning `[]` for absent keys. -/

/-- `RudiSpace.get_transformers(ext, extonly=False)`: the chain for `ext`,
with the `"pre"` chain prepended and the `"post"` chain appended unless
`extonly` is set.  (`if pre:`/`if post:` skip empty chains, which coincides
with concatenating them.) -/
def get_transformers {τ : Type} (ext2transformers : String → List τ)
    (ext : String) (extonly : Bool) : List τ :=
  let transformers := ext2transformers ext
  if extonly then transformers
  else ext2transformers "pre" ++ transformers ++ ext2transformers "post"

/-! ## The bootstrap `decorate` transformer
(`lib/rudiweb/transformers/bootstrap/decorate.py`)

The module builds `BRAND_NAME_TEXT`, `COPYRIGHT_STRING_TEXT`, the `NAVBAR`
subtree (with `NAVBAR_UL_ELEMENT` inside) and the `HEAD`/`FOOTER`/`BOTTOM`
fragments *once at import time*, and `main` patches those singletons from its
keyword arguments on every request, then splices them into the request's
tree.  The module-level mutable state is made explicit as `DecorState`,
threaded through consecutive requests of the process.

`main` also uses tree helpers (`Root.get_headbody`, `ParentNode.addl`,
`set_attr`) that are not part of `src/`; their effect — returning the
`head`/`body` elements of the engine-built root and appending a list of
children — is modelled from the spec's transformer contract and the call
sites.  The `bootstrap_theme`/`brand_logo_*` kwargs and the `<title>`
insertion (which depends on the request context) are not modelled. -/

/-- The module-level mutable fragments of `decorate.py`. -/
structure DecorState where
  brandName : String
  copyrightString : String
  navbarUlChildren : List HNode

/-- State at process start (module import). -/
def initDecorState : DecorState :=
  { brandName := "brand name"
    copyrightString := "Ⓒ 2023 company name"
    navbarUlChildren := [] }

/-- The kwargs of one `decorate.main` invocation (one request). -/
structure DecorKwargs where
  brand_name : Option String := none
  copyright_string : Option String := none
  navbar_items : List (String × String) := []

/-- One navbar entry: `li.nav-item > a.nav-link` with the item's text as the
anchor's child and its link as `href`. -/
def mkNavItem (item : String × String) : HNode :=
  .element "li" [("class", Attr.mk0 "class" ["nav-item"])] none
    (.cons (.element "a"
        [("href", Attr.mk0 "href" [item.2]), ("class", Attr.mk0 "class" ["nav-link"])] none
      (.cons (.text item.1) .nil)) .nil)

/-- The `HEAD` fragment (static). -/
def decorHEAD : List HNode :=
  [.element "meta" [("charset", Attr.mk0 "charset" ["utf-8"])] none .nil,
   .element "meta"
     [("name", Attr.mk0 "name" ["\"viewport\" content=\"width=device-width, initial-scale=1\""])]
     none .nil,
   .element "link" [("href", Attr.mk0 "href" ["/asis/bootstrap/css/bootstrap.min.css"]),
     ("rel", Attr.mk0 "rel" ["stylesheet"])] none .nil,
   .element "link" [("href", Attr.mk0 "href" ["/asis/extra.css"]),
     ("rel", Attr.mk0 "rel" ["stylesheet"])] none .nil,
   .element "link" [("href", Attr.mk0 "href" ["/asis/codehilite.css"]),
     ("rel", Attr.mk0 "rel" ["stylesheet"])] none .nil]

/-- The `NAVBAR` fragment as spliced for the current module state. -/
def decorNavbar (st : DecorState) : HNode :=
  .element "nav"
    [("class", Attr.mk0 "class" ["navbar", "sticky-top", "navbar-dark", "bg-dark",
      "navbar-expand-md", "py-1", "border-bottom", "border-success", "border-2"])] none
    (.cons (.element "div" [("class", Attr.mk0 "class" ["container"])] none
      (.cons (.element "a"
          [("href", Attr.mk0 "href" ["/"]), ("class", Attr.mk0 "class" ["navbar-brand"])] none
        (.cons (.element "img"
            [("class", Attr.mk0 "class" ["img-fluid", "w-30"]),
             ("style", Attr.mk0 "style"
               ["border-radius: 4px; max-width: 30px; max-height: 30px; margin: 4px 4px 4px 0px;"]),
             ("src", Attr.mk0 "src" ["/asis/img/brand-logo.png"]),
             ("alt", Attr.mk0 "alt" ["brand logo"])] none .nil)
          (.cons (.text " ")
            (.cons (.text st.brandName) .nil))))
       (.cons (.element "button"
            [("class", Attr.mk0 "class" ["navbar-toggler"]),
             ("type", Attr.mk0 "type" ["button"]),
             ("data-bs-toggle", Attr.mk0 "data-bs-toggle" ["collapse"]),
             ("data-bs-target", Attr.mk0 "data-bs-target" ["#navmenu"])] none
          (.cons (.element "span"
            [("class", Attr.mk0 "class" ["navbar-toggler-icon"])] none .nil) .nil))
         (.cons (.element "div"
              [("class", Attr.mk0 "class"
                 ["collapse", "navbar-collapse", "justify-content-md-center"]),
               ("id", Attr.mk0 "id" ["navmenu"])] none
            (.cons (.element "ul" [("class", Attr.mk0 "class" ["navbar-nav", "ms-auto"])] none
              (HForest.ofList st.navbarUlChildren)) .nil)) .nil))))
     .nil)

/-- The `FOOTER` fragment as spliced for the current module state. -/
def decorFooter (st : DecorState) : List HNode :=
  [.element "section" [("class", Attr.mk0 "class" ["container"])] none
    (.cons (.element "div" [("align", Attr.mk0 "align" ["center"])] none
      (.cons (.element "hr" [] none .nil)
        (.cons (.text st.copyrightString)
          (.cons (.text " | ")
            (.cons (.text "Powered by ")
              (.cons (.element "a"
                  [("href", Attr.mk0 "href" ["https://j4m-solutions.com/"])] none
                  (.cons (.text "rudiweb") .nil))
                (.cons (.text ".") .nil))))))) .nil)]

/-- The `BOTTOM` fragment (static). -/
def decorBottom : List HNode :=
  [.element "script"
    [("src", Attr.mk0 "src" ["/asis/bootstrap/js/bootstrap.bundle.min.js"])] none .nil]

/-- `decorate.main` for one request: patch the module singletons from the
kwargs, then assemble the decorated tree around the request's body content.
Returns the module state left behind for the next request together with the
new root's children. -/
def decorMain (st : DecorState) (kw : DecorKwargs) (bodyChildren : List HNode) :
    DecorState × List HNode :=
  let st' : DecorState :=
    { brandName := kw.brand_name.getD st.brandName
      copyrightString := kw.copyright_string.getD st.copyrightString
      navbarUlChildren :=
        match kw.navbar_items with
        | [] => st.navbarUlChildren
        | items => (items.filter (fun i => i.1 ≠ "")).map mkNavItem }
  let head := HNode.element "head" [] none (HForest.ofList decorHEAD)
  let body := HNode.element "body" [] none
    (HForest.ofList (decorNavbar st' :: bodyChildren ++ decorFooter st' ++ decorBottom))
  (st', [.element "html" [] none (.cons head (.cons body .nil))])

set_option maxRecDepth 10000 in
example :
    strContains
      (okOr "" (Root.render canonEnum []
        (HForest.ofList (decorMain (decorMain initDecorState { brand_name := some "X" }
          [.text "page one"]).1 {} [.text "page two"]).2)))
      "X" = true := by rfl

set_option maxRecDepth 10000 in
example :
    strContains
      (okOr "" (Root.render canonEnum []
        (HForest.ofList (decorMain initDecorState {} [.text "page two"]).2)))
      "X" = false := by rfl

/-! ## The render–parse round trip

The class of trees for which `parse(render(tree))` reconstructs the tree is
delimited by `WfF` below; the counterexample and amendment of the round-trip
claim explain each restriction. -/

/-- ASCII lowercase letter. -/
def isLowerAlpha (c : Char) : Bool :=
  97 ≤ c.toNat && c.toNat ≤ 122

/-- ASCII digit. -/
def isDigitC (c : Char) : Bool :=
  48 ≤ c.toNat && c.toNat ≤ 57

/-- A tag the tokenizer reads back verbatim: a lowercase letter followed by
lowercase letters and digits. -/
def tagOkB (tag : String) : Bool :=
  match tag.data with
  | [] => false
  | c :: cs => isLowerAlpha c && cs.all (fun c => isLowerAlpha c || isDigitC c)

/-- Attribute entries whose key equals the attribute's name (the dict
invariant the source maintains) and whose name contains no `>`. -/
def attrsOkP (l : List (String × Attr)) : Prop :=
  ∀ p ∈ l, p.1 = p.2.name ∧ ¬ '>' ∈ p.2.name.data

def isTextN : HNode → Bool
  | .text _ => true
  | _ => false

def headIsText : HForest → Bool
  | .nil => false
  | .cons n _ => isTextN n

mutual

/-- Nodes in the round-trip class: non-empty ampersand-free text, arbitrary
comments, and elements with well-formed lowercase tags that are not void, not
newline-suffixed, and not `script`/`style` (the parser's CDATA modes), with
well-formed attribute names. -/
inductive WfN (wd : List (String × List (String × Attr))) : HNode → Prop
  | text (s : String) (hne : s ≠ "") (hamp : ¬ '&' ∈ s.data) : WfN wd (.text s)
  | comment (s : String) : WfN wd (.comment s)
  | element (tag : String) (attrs : List (String × Attr))
      (defaults : Option (List (String × List (String × Attr)))) (children : HForest)
      (htag : tagOkB tag = true) (hvoid : is_void tag = false)
      (hnl : NL_ELEMENTS.contains tag = false)
      (hscript : tag ≠ "script") (hstyle : tag ≠ "style")
      (hattrs : attrsOkP (attrs ++ getAttrsD (defaults.getD wd) tag))
      (hch : WfF wd children) : WfN wd (.element tag attrs defaults children)

/-- Forests in the round-trip class: additionally, no two adjacent `text`
nodes (the tokenizer merges adjacent data runs). -/
inductive WfF (wd : List (String × List (String × Attr))) : HForest → Prop
  | nil : WfF wd .nil
  | cons (n : HNode) (rest : HForest) (hn : WfN wd n) (hrest : WfF wd rest)
      (hadj : isTextN n = false ∨ headIsText rest = false) : WfF wd (.cons n rest)

end

mutual

/-- The token sequence the tokenizer recovers from a rendered node of the
round-trip class (raw token payloads; `buildStep` unescapes them). -/
def nodeToks : HNode → List PTok
  | .text s => [.chdata (escape s false)]
  | .raw _ => []
  | .comment s => [.chcomment (" " ++ escape s true ++ " ")]
  | .element tag _ _ children => .stag tag :: (forestToks children ++ [.etag tag])

def forestToks : HForest → List PTok
  | .nil => []
  | .cons n rest => nodeToks n ++ forestToks rest

end

mutual

/-- The string `renderNode` produces on the round-trip class (where rendering
cannot raise, tags are non-void and carry no newline suffix). -/
def renderStrN (o : SetEnum) (wd : List (String × List (String × Attr))) : HNode → String
  | .text s => escape s false
  | .raw s => s
  | .comment s => Comment.render s
  | .element tag attrs defaults children =>
    "<" ++ tag
      ++ (if (attrStrings o attrs (getAttrsD (defaults.getD wd) tag)).isEmpty then "" else " ")
      ++ joinSpace (attrStrings o attrs (getAttrsD (defaults.getD wd) tag))
      ++ ">" ++ renderStrF o wd children ++ "</" ++ tag ++ ">"

def renderStrF (o : SetEnum) (wd : List (String × List (String × Attr))) : HForest → String
  | .nil => ""
  | .cons n rest => renderStrN o wd n ++ renderStrF o wd rest

end

mutual

/-- On the round-trip class rendering raises nothing and produces
`renderStrN` (for any non-`script` parent context). -/
theorem renderNode_wf_ok (o : SetEnum) (wd : List (String × List (String × Attr)))
    (n : HNode) (hn : WfN wd n) (p : Option String) (hp : p ≠ some "script") :
    renderNode o wd p n = .ok (renderStrN o wd n) := by
  cases hn with
  | text s hne hamp =>
    simp only [renderNode, renderStrN, Text.render, if_neg hp]
  | comment s => rfl
  | element tag attrs defaults children htag hvoid hnl hscript hstyle hattrs hch =>
    have hmem : ¬ tag ∈ NL_ELEMENTS := by simpa using hnl
    have hfor := renderForest_wf_ok o wd children hch (some tag)
      (by simp [hscript])
    simp only [renderNode, renderStrN]
    rw [if_neg (by simp [hvoid])]
    rw [hfor]
    dsimp only
    rw [show nlSuffix tag = "" by simp [nlSuffix, hmem], String.append_empty]

theorem renderForest_wf_ok (o : SetEnum) (wd : List (String × List (String × Attr)))
    (f : HForest) (hf : WfF wd f) (p : Option String) (hp : p ≠ some "script") :
    renderForest o wd p f = .ok (renderStrF o wd f) := by
  cases hf with
  | nil => rfl
  | cons n rest hn hrest hadj =>
    have h1 := renderNode_wf_ok o wd n hn p hp
    have h2 := renderForest_wf_ok o wd rest hrest p hp
    simp only [renderForest]
    rw [h1, h2]
    rfl

end

set_option maxHeartbeats 1000000 in
theorem unescapeL_cons_ne (c : Char) (rest : List Char) (h : c ≠ '&') :
    unescapeL (c :: rest) = c :: unescapeL rest := by
  rw [unescapeL.eq_def]
  dsimp only
  rw [if_neg h]

theorem unescapeL_escapeL (q : Bool) (s t : List Char) :
    unescapeL (escapeL q s ++ t) = s ++ unescapeL t := by
  induction s with
  | nil => rfl
  | cons c s' ih =>
    show unescapeL (escChar q c ++ escapeL q s' ++ t) = c :: (s' ++ unescapeL t)
    by_cases h1 : c = '&'
    · subst h1
      rw [show escChar q '&' = ['&', 'a', 'm', 'p', ';'] from rfl]
      show unescapeL ('&' :: 'a' :: 'm' :: 'p' :: ';' :: (escapeL q s' ++ t)) = _
      rw [show ∀ X, unescapeL ('&' :: 'a' :: 'm' :: 'p' :: ';' :: X) = '&' :: unescapeL X
        from fun X => rfl]
      rw [ih]
    · by_cases h2 : c = '<'
      · subst h2
        rw [show escChar q '<' = ['&', 'l', 't', ';'] from rfl]
        show unescapeL ('&' :: 'l' :: 't' :: ';' :: (escapeL q s' ++ t)) = _
        rw [show ∀ X, unescapeL ('&' :: 'l' :: 't' :: ';' :: X) = '<' :: unescapeL X
          from fun X => rfl]
        rw [ih]
      · by_cases h3 : c = '>'
        · subst h3
          rw [show escChar q '>' = ['&', 'g', 't', ';'] from rfl]
          show unescapeL ('&' :: 'g' :: 't' :: ';' :: (escapeL q s' ++ t)) = _
          rw [show ∀ X, unescapeL ('&' :: 'g' :: 't' :: ';' :: X) = '>' :: unescapeL X
            from fun X => rfl]
          rw [ih]
        · by_cases h4 : q = true ∧ c = '"'
          · obtain ⟨hq, hc⟩ := h4
            subst hq; subst hc
            rw [show escChar true '"' = ['&', 'q', 'u', 'o', 't', ';'] from rfl]
            show unescapeL ('&' :: 'q' :: 'u' :: 'o' :: 't' :: ';' :: (escapeL true s' ++ t)) = _
            rw [show ∀ X, unescapeL ('&' :: 'q' :: 'u' :: 'o' :: 't' :: ';' :: X)
                = '"' :: unescapeL X from fun X => rfl]
            rw [ih]
          · by_cases h5 : q = true ∧ c = '\''
            · obtain ⟨hq, hc⟩ := h5
              subst hq; subst hc
              rw [show escChar true '\'' = ['&', '#', 'x', '2', '7', ';'] from rfl]
              show unescapeL ('&' :: '#' :: 'x' :: '2' :: '7' :: ';' :: (escapeL true s' ++ t)) = _
              rw [show ∀ X, unescapeL ('&' :: '#' :: 'x' :: '2' :: '7' :: ';' :: X)
                  = '\'' :: unescapeL X from fun X => rfl]
              rw [ih]
            · have he : escChar q c = [c] := by
                unfold escChar
                rw [if_neg h1, if_neg h2, if_neg h3]
                rw [if_neg (by rcases Bool.eq_false_or_eq_true q with hq | hq <;>
                  simp [hq, decide_eq_true_eq] <;> tauto)]
                rw [if_neg (by rcases Bool.eq_false_or_eq_true q with hq | hq <;>
                  simp [hq, decide_eq_true_eq] <;> tauto)]
              rw [he]
              show unescapeL (c :: (escapeL q s' ++ t)) = _
              rw [unescapeL_cons_ne c _ h1, ih]

theorem unescapeL_no_amp (s : List Char) (h : ¬ '&' ∈ s) : unescapeL s = s := by
  induction s with
  | nil => rfl
  | cons c s' ih =>
    rw [unescapeL_cons_ne c s' (fun hc => h (by simp [hc]))]
    rw [ih (fun hc => h (by simp [hc]))]

theorem escChar_no_lt (q : Bool) (c : Char) : ¬ '<' ∈ escChar q c := by
  unfold escChar
  split_ifs with h1 h2 h3 h4 h5
  · decide
  · decide
  · decide
  · decide
  · decide
  · simp only [List.mem_singleton]
    intro hc
    exact h2 hc.symm

theorem escChar_no_gt (q : Bool) (c : Char) : ¬ '>' ∈ escChar q c := by
  unfold escChar
  split_ifs with h1 h2 h3 h4 h5
  · decide
  · decide
  · decide
  · decide
  · decide
  · simp only [List.mem_singleton]
    intro hc
    exact h3 hc.symm

theorem escChar_ne_nil (q : Bool) (c : Char) : escChar q c ≠ [] := by
  unfold escChar
  split_ifs <;> simp

theorem escapeL_no_lt (q : Bool) (s : List Char) : ¬ '<' ∈ escapeL q s := by
  induction s with
  | nil => simp [escapeL]
  | cons c s' ih =>
    show ¬ '<' ∈ escChar q c ++ escapeL q s'
    rw [List.mem_append]
    rintro (h | h)
    · exact escChar_no_lt q c h
    · exact ih h

theorem escapeL_no_gt (q : Bool) (s : List Char) : ¬ '>' ∈ escapeL q s := by
  induction s with
  | nil => simp [escapeL]
  | cons c s' ih =>
    show ¬ '>' ∈ escChar q c ++ escapeL q s'
    rw [List.mem_append]
    rintro (h | h)
    · exact escChar_no_gt q c h
    · exact ih h

theorem escapeL_ne_nil (q : Bool) (c : Char) (s : List Char) :
    escapeL q (c :: s) ≠ [] := by
  show escChar q c ++ escapeL q s ≠ []
  simp [escChar_ne_nil q c]

/-! ### Scanner step lemmas -/

theorem emitData_append (buf : List Char) (toks : List PTok) :
    emitData buf toks = emitData buf [] ++ toks := by
  unfold emitData
  split_ifs <;> simp

theorem scan_data_cons (buf : List Char) (c : Char) (rest : List Char) (h : c ≠ '<') :
    scan (.data buf) (c :: rest) = scan (.data (buf ++ [c])) rest := by
  have e : scan (.data buf) (c :: rest)
      = if c = '<' then scan (.lt buf) rest else scan (.data (buf ++ [c])) rest := rfl
  rw [e, if_neg h]

theorem scan_lt_other (buf : List Char) (c : Char) (rest : List Char)
    (h1 : c ≠ '!') (h2 : c ≠ '/') :
    scan (.lt buf) (c :: rest) = emitData buf (scan (.stag [c]) rest) := by
  have e : scan (.lt buf) (c :: rest)
      = if c = '!' then scan (.bang buf) rest
        else if c = '/' then emitData buf (scan (.etag []) rest)
        else emitData buf (scan (.stag [c]) rest) := rfl
  rw [e, if_neg h1, if_neg h2]

theorem scan_stag_cons (tb : List Char) (c : Char) (rest : List Char) (h : c ≠ '>') :
    scan (.stag tb) (c :: rest) = scan (.stag (tb ++ [c])) rest := by
  have e : scan (.stag tb) (c :: rest)
      = if c = '>' then .stag (tagNameOf tb) :: scan (.data []) rest
        else scan (.stag (tb ++ [c])) rest := rfl
  rw [e, if_neg h]

theorem scan_etag_cons (tb : List Char) (c : Char) (rest : List Char) (h : c ≠ '>') :
    scan (.etag tb) (c :: rest) = scan (.etag (tb ++ [c])) rest := by
  have e : scan (.etag tb) (c :: rest)
      = if c = '>' then .etag (tagNameOf tb) :: scan (.data []) rest
        else scan (.etag (tb ++ [c])) rest := rfl
  rw [e, if_neg h]

theorem scan_com_cons (cb : List Char) (c : Char) (rest : List Char) (h : c ≠ '-') :
    scan (.com cb) (c :: rest) = scan (.com (cb ++ [c])) rest := by
  have e : scan (.com cb) (c :: rest)
      = if c = '-' then scan (.comD cb) rest else scan (.com (cb ++ [c])) rest := rfl
  rw [e, if_neg h]

theorem scan_comD_cons (cb : List Char) (c : Char) (rest : List Char) (h : c ≠ '-') :
    scan (.comD cb) (c :: rest) = scan (.com (cb ++ ['-', c])) rest := by
  have e : scan (.comD cb) (c :: rest)
      = if c = '-' then scan (.comDD cb) rest else scan (.com (cb ++ ['-', c])) rest := rfl
  rw [e, if_neg h]

theorem scan_comDD_dash (cb : List Char) (rest : List Char) :
    scan (.comDD cb) ('-' :: rest) = scan (.comDD (cb ++ ['-'])) rest := rfl

theorem scan_comDD_cons (cb : List Char) (c : Char) (rest : List Char)
    (h1 : c ≠ '>') (h2 : c ≠ '-') :
    scan (.comDD cb) (c :: rest) = scan (.com (cb ++ ['-', '-', c])) rest := by
  have e : scan (.comDD cb) (c :: rest)
      = if c = '>' then .chcomment ⟨cb⟩ :: scan (.data []) rest
        else if c = '-' then scan (.comDD (cb ++ ['-'])) rest
        else scan (.com (cb ++ ['-', '-', c])) rest := rfl
  rw [e, if_neg h1, if_neg h2]

/-- A continuation at which pending text flushes identically whether or not
text was pending: end of input, an end tag, a comment opener, or a start tag
(second character neither `!` nor `/`). -/
def GoodBoundary (l : List Char) : Prop :=
  l = [] ∨ (∃ r, l = '<' :: '/' :: r) ∨ (∃ r, l = '<' :: '!' :: '-' :: '-' :: r) ∨
    (∃ c r, l = '<' :: c :: r ∧ c ≠ '!' ∧ c ≠ '/')

theorem scan_data_flush (buf : List Char) (inp : List Char) (h : GoodBoundary inp) :
    scan (.data buf) inp = emitData buf [] ++ scan (.data []) inp := by
  rcases h with rfl | ⟨r, rfl⟩ | ⟨r, rfl⟩ | ⟨c, r, rfl, h1, h2⟩
  · show emitData buf [] = emitData buf [] ++ emitData [] []
    simp [emitData]
  · show emitData buf (scan (.etag []) r)
      = emitData buf [] ++ emitData [] (scan (.etag []) r)
    rw [show emitData [] (scan (.etag []) r) = scan (.etag []) r from rfl]
    exact emitData_append buf _
  · show emitData buf (scan (.com []) r)
      = emitData buf [] ++ emitData [] (scan (.com []) r)
    rw [show emitData [] (scan (.com []) r) = scan (.com []) r from rfl]
    exact emitData_append buf _
  · show scan (.lt buf) (c :: r) = emitData buf [] ++ scan (.lt []) (c :: r)
    rw [scan_lt_other buf c r h1 h2, scan_lt_other [] c r h1 h2]
    rw [show emitData [] (scan (.stag [c]) r) = scan (.stag [c]) r from rfl]
    exact emitData_append buf _

/-! ### Scanner accumulation lemmas -/

theorem scan_data_acc (xs : List Char) (h : ∀ c ∈ xs, c ≠ '<') :
    ∀ (buf rest : List Char), scan (.data buf) (xs ++ rest) = scan (.data (buf ++ xs)) rest := by
  induction xs with
  | nil => intro buf rest; simp
  | cons x xs' ih =>
    intro buf rest
    rw [List.cons_append, scan_data_cons buf x _ (h x (by simp))]
    rw [ih (fun c hc => h c (by simp [hc]))]
    simp

theorem scan_stag_acc (xs : List Char) (h : ¬ '>' ∈ xs) :
    ∀ (tb rest : List Char),
      scan (.stag tb) (xs ++ '>' :: rest) = .stag (tagNameOf (tb ++ xs)) :: scan (.data []) rest := by
  induction xs with
  | nil =>
    intro tb rest
    simp only [List.nil_append, List.append_nil]
    rfl
  | cons x xs' ih =>
    intro tb rest
    rw [List.cons_append, scan_stag_cons tb x _ (fun hx => h (by simp [hx]))]
    rw [ih (fun hx => h (by simp [hx]))]
    simp

theorem scan_etag_acc (xs : List Char) (h : ¬ '>' ∈ xs) :
    ∀ (tb rest : List Char),
      scan (.etag tb) (xs ++ '>' :: rest) = .etag (tagNameOf (tb ++ xs)) :: scan (.data []) rest := by
  induction xs with
  | nil =>
    intro tb rest
    simp only [List.nil_append, List.append_nil]
    rfl
  | cons x xs' ih =>
    intro tb rest
    rw [List.cons_append, scan_etag_cons tb x _ (fun hx => h (by simp [hx]))]
    rw [ih (fun hx => h (by simp [hx]))]
    simp

theorem scan_com_acc (xs : List Char) (h : ¬ '>' ∈ xs) :
    ∀ (cb rest : List Char),
      scan (.com cb) (xs ++ '-' :: '-' :: '>' :: rest)
          = .chcomment ⟨cb ++ xs⟩ :: scan (.data []) rest
      ∧ scan (.comD cb) (xs ++ '-' :: '-' :: '>' :: rest)
          = .chcomment ⟨cb ++ '-' :: xs⟩ :: scan (.data []) rest
      ∧ scan (.comDD cb) (xs ++ '-' :: '-' :: '>' :: rest)
          = .chcomment ⟨cb ++ '-' :: '-' :: xs⟩ :: scan (.data []) rest := by
  induction xs with
  | nil =>
    intro cb rest
    refine ⟨?_, ?_, ?_⟩
    · show scan (.comD cb) ('-' :: '>' :: rest) = _
      show scan (.comDD cb) ('>' :: rest) = _
      simp [scan]
    · show scan (.comDD cb) ('-' :: '>' :: rest) = _
      rw [scan_comDD_dash]
      show PTok.chcomment ⟨cb ++ ['-']⟩ :: scan (.data []) rest = _
      simp
    · rw [List.nil_append, scan_comDD_dash, scan_comDD_dash]
      show PTok.chcomment ⟨cb ++ ['-'] ++ ['-']⟩ :: scan (.data []) rest = _
      simp
  | cons x xs' ih =>
    intro cb rest
    have hx : x ≠ '>' := fun hx => h (by simp [hx])
    have h' : ¬ '>' ∈ xs' := fun hm => h (by simp [hm])
    by_cases hd : x = '-'
    · subst hd
      refine ⟨?_, ?_, ?_⟩
      · show scan (.comD cb) (xs' ++ _) = _
        exact (ih h' cb rest).2.1
      · show scan (.comDD cb) (xs' ++ _) = _
        exact (ih h' cb rest).2.2
      · rw [List.cons_append, scan_comDD_dash]
        rw [(ih h' (cb ++ ['-']) rest).2.2]
        simp
    · refine ⟨?_, ?_, ?_⟩
      · rw [List.cons_append, scan_com_cons cb x _ hd]
        rw [(ih h' (cb ++ [x]) rest).1]
        simp
      · rw [List.cons_append, scan_comD_cons cb x _ hd]
        rw [(ih h' (cb ++ ['-', x]) rest).1]
        simp
      · rw [List.cons_append, scan_comDD_cons cb x _ hx hd]
        rw [(ih h' (cb ++ ['-', '-', x]) rest).1]
        simp

/-! ### Tag-name extraction lemmas -/

theorem alnum_props (c : Char) (h : isLowerAlpha c = true ∨ isDigitC c = true) :
    isTagNameChar c = true ∧ c ≠ '>' ∧ c ≠ '<' ∧ c ≠ '!' ∧ c ≠ '/' ∧ c ≠ '&' ∧
      c ≠ '-' ∧ lowerC c = c := by
  have hb : (48 ≤ c.toNat ∧ c.toNat ≤ 57) ∨ (97 ≤ c.toNat ∧ c.toNat ≤ 122) := by
    rcases h with h | h
    · right
      simpa [isLowerAlpha, Bool.and_eq_true, decide_eq_true_eq] using h
    · left
      simpa [isDigitC, Bool.and_eq_true, decide_eq_true_eq] using h
  have hne : ∀ d : Char, d.toNat < 48 ∨ (57 < d.toNat ∧ d.toNat < 97) ∨ 122 < d.toNat →
      c ≠ d := by
    rintro d hd rfl
    omega
  refine ⟨?_, hne '>' (by decide), hne '<' (by decide), hne '!' (by decide),
    hne '/' (by decide), hne '&' (by decide), hne '-' (by decide), ?_⟩
  · simp only [isTagNameChar, Bool.not_eq_true', Bool.or_eq_false_iff,
      decide_eq_false_iff_not]
    omega
  · unfold lowerC
    rw [if_neg]
    intro ⟨h1, h2⟩
    omega

theorem takeWhile_all {p : Char → Bool} :
    ∀ (l : List Char), (∀ c ∈ l, p c = true) → l.takeWhile p = l
  | [], _ => rfl
  | c :: rest, h => by
    simp only [List.takeWhile_cons, h c (by simp)]
    rw [takeWhile_all rest (fun d hd => h d (by simp [hd]))]
    simp

theorem takeWhile_append_stop {p : Char → Bool} (l1 : List Char) (x : Char)
    (l2 : List Char) (h1 : ∀ c ∈ l1, p c = true) (h2 : p x = false) :
    (l1 ++ x :: l2).takeWhile p = l1 := by
  induction l1 with
  | nil => simp [List.takeWhile_cons, h2]
  | cons c rest ih =>
    simp only [List.cons_append, List.takeWhile_cons, h1 c (by simp)]
    rw [ih (fun d hd => h1 d (by simp [hd]))]
    simp

theorem map_self {f : Char → Char} :
    ∀ (l : List Char), (∀ c ∈ l, f c = c) → l.map f = l
  | [], _ => rfl
  | c :: rest, h => by
    simp only [List.map_cons, h c (by simp)]
    rw [map_self rest (fun d hd => h d (by simp [hd]))]

/-- The character facts `tagOkB` grants for every character of the tag. -/
theorem tagOk_chars (tag : String) (h : tagOkB tag = true) :
    ∀ c ∈ tag.data, isLowerAlpha c = true ∨ isDigitC c = true := by
  intro c hc
  unfold tagOkB at h
  cases he : tag.data with
  | nil =>
    rw [he] at hc
    simp at hc
  | cons c0 cs =>
    rw [he] at h hc
    simp only [Bool.and_eq_true, List.all_eq_true, Bool.or_eq_true] at h
    rcases List.mem_cons.mp hc with rfl | hc2
    · exact Or.inl h.1
    · exact h.2 c hc2

theorem tagOk_head (tag : String) (h : tagOkB tag = true) :
    ∃ c0 cs, tag.data = c0 :: cs ∧ isLowerAlpha c0 = true := by
  unfold tagOkB at h
  cases he : tag.data with
  | nil => rw [he] at h; exact absurd h (by simp)
  | cons c0 cs =>
    rw [he] at h
    simp only [Bool.and_eq_true] at h
    exact ⟨c0, cs, rfl, h.1⟩

theorem tagOk_no_gt (tag : String) (h : tagOkB tag = true) : ¬ '>' ∈ tag.data := by
  intro hc
  exact (alnum_props '>' (tagOk_chars tag h '>' hc)).2.1 rfl

/-- A well-formed tag extracts from its own characters. -/
theorem tagNameOf_self (tag : String) (h : tagOkB tag = true) :
    tagNameOf tag.data = tag := by
  unfold tagNameOf
  rw [takeWhile_all tag.data (fun c hc => (alnum_props c (tagOk_chars tag h c hc)).1)]
  rw [map_self tag.data (fun c hc => (alnum_props c (tagOk_chars tag h c hc)).2.2.2.2.2.2.2)]

/-- A well-formed tag extracts from a buffer that continues with a space. -/
theorem tagNameOf_space (tag : String) (h : tagOkB tag = true) (more : List Char) :
    tagNameOf (tag.data ++ ' ' :: more) = tag := by
  unfold tagNameOf
  rw [takeWhile_append_stop tag.data ' ' more
    (fun c hc => (alnum_props c (tagOk_chars tag h c hc)).1) (by decide)]
  rw [map_self tag.data (fun c hc => (alnum_props c (tagOk_chars tag h c hc)).2.2.2.2.2.2.2)]

/-! ### The rendered element head contains no `>` before its closing bracket -/

theorem data_append (s t : String) : (s ++ t).data = s.data ++ t.data := by
  cases s
  cases t
  rfl

/-- The attribute region of a rendered start tag: the separating space (when
attributes exist) followed by the joined attribute strings. -/
def attrText (o : SetEnum) (attrs defattrs : List (String × Attr)) : String :=
  (if (attrStrings o attrs defattrs).isEmpty then "" else " ")
    ++ joinSpace (attrStrings o attrs defattrs)

theorem joinSpace_no_gt :
    ∀ (parts : List String), (∀ x ∈ parts, ¬ '>' ∈ x.data) →
      ¬ '>' ∈ (joinSpace parts).data
  | [], _ => by simp [joinSpace]
  | [x], h => by
    simpa [joinSpace] using h x (by simp)
  | x :: y :: rest, h => by
    show ¬ '>' ∈ (x ++ " " ++ joinSpace (y :: rest)).data
    rw [data_append, data_append]
    simp only [List.mem_append]
    rintro ((hc | hc) | hc)
    · exact h x (by simp) hc
    · exact absurd hc (by decide)
    · exact joinSpace_no_gt (y :: rest) (fun z hz => h z (by simp [List.mem_cons] at hz ⊢; tauto)) hc

theorem attr_render_no_gt (o : SetEnum) (a : Attr) (extra : Option Attr)
    (h : ¬ '>' ∈ a.name.data) : ¬ '>' ∈ (Attr.render o a extra).data := by
  unfold Attr.render
  dsimp only
  split_ifs
  · exact h
  · rw [data_append, data_append, data_append]
    simp only [List.mem_append]
    rintro (((hc | hc) | hc) | hc)
    · exact h hc
    · exact absurd hc (by decide)
    · refine joinSpace_no_gt _ ?_ hc
      intro x hx
      simp only [List.mem_map] at hx
      obtain ⟨v, _, rfl⟩ := hx
      exact escapeL_no_gt true v.data
    · exact absurd hc (by decide)

theorem lookupA_mem (m : List (String × Attr)) (n : String) (a : Attr)
    (h : lookupA m n = some a) : ∃ k, (k, a) ∈ m := by
  unfold lookupA at h
  cases hf : m.find? (fun p => p.1 == n) with
  | none => rw [hf] at h; simp at h
  | some p =>
    rw [hf] at h
    have hp := List.mem_of_find?_eq_some hf
    have hpa : p.2 = a := by simpa using h
    refine ⟨p.1, ?_⟩
    rw [← hpa]
    exact hp

theorem attrStrings_no_gt (o : SetEnum) (attrs defattrs : List (String × Attr))
    (hok : attrsOkP (attrs ++ defattrs)) :
    ∀ e ∈ attrStrings o attrs defattrs, ¬ '>' ∈ e.data := by
  intro e he
  unfold attrStrings at he
  rw [List.mem_filterMap] at he
  obtain ⟨an, -, hf⟩ := he
  cases h1 : lookupA attrs an with
  | some a =>
    rw [h1] at hf
    simp only [Option.some.injEq] at hf
    obtain ⟨k, hk⟩ := lookupA_mem attrs an a h1
    have := hok (k, a) (List.mem_append_left _ hk)
    rw [← hf]
    exact attr_render_no_gt o a _ this.2
  | none =>
    rw [h1] at hf
    cases h2 : lookupA defattrs an with
    | none => rw [h2] at hf; simp at hf
    | some b =>
      rw [h2] at hf
      simp only [Option.some.injEq] at hf
      obtain ⟨k, hk⟩ := lookupA_mem defattrs an b h2
      have := hok (k, b) (List.mem_append_right _ hk)
      rw [← hf]
      exact attr_render_no_gt o b none this.2

theorem attrText_no_gt (o : SetEnum) (attrs defattrs : List (String × Attr))
    (hok : attrsOkP (attrs ++ defattrs)) : ¬ '>' ∈ (attrText o attrs defattrs).data := by
  unfold attrText
  rw [data_append]
  simp only [List.mem_append]
  rintro (hc | hc)
  · split_ifs at hc <;> simp at hc
  · exact joinSpace_no_gt _ (attrStrings_no_gt o attrs defattrs hok) hc

/-! ### Shape of the rendered strings -/

theorem renderStrN_element_data (o : SetEnum) (wd : List (String × List (String × Attr)))
    (tag : String) (attrs : List (String × Attr))
    (defaults : Option (List (String × List (String × Attr)))) (ch : HForest) :
    (renderStrN o wd (.element tag attrs defaults ch)).data
      = '<' :: ((tag.data ++ (attrText o attrs (getAttrsD (defaults.getD wd) tag)).data)
        ++ '>' :: ((renderStrF o wd ch).data ++ '<' :: '/' :: (tag.data ++ ['>']))) := by
  have e : renderStrN o wd (.element tag attrs defaults ch)
      = "<" ++ tag ++ attrText o attrs (getAttrsD (defaults.getD wd) tag) ++ ">"
        ++ renderStrF o wd ch ++ "</" ++ tag ++ ">" := by
    simp [renderStrN, attrText, String.append_assoc]
  rw [e]
  simp only [data_append]
  simp [List.append_assoc]

theorem renderStrN_comment_data (o : SetEnum) (wd : List (String × List (String × Attr)))
    (s : String) :
    (renderStrN o wd (.comment s)).data
      = '<' :: '!' :: '-' :: '-' ::
          ((' ' :: (escapeL true s.data ++ [' '])) ++ '-' :: '-' :: '>' :: ([] : List Char)) := by
  show ("<!-- " ++ escape s true ++ " -->").data = _
  simp only [data_append]
  rw [show (escape s true).data = escapeL true s.data from rfl]
  simp [List.append_assoc]

/-- A rendered non-text node, in any continuation, is a boundary at which
pending text flushes. -/
theorem renderStrN_boundary (o : SetEnum) (wd : List (String × List (String × Attr)))
    (n : HNode) (hn : WfN wd n) (ht : isTextN n = false) (more : List Char) :
    GoodBoundary ((renderStrN o wd n).data ++ more) := by
  cases hn with
  | text s hne hamp => simp [isTextN] at ht
  | comment s =>
    right; right; left
    rw [renderStrN_comment_data]
    refine ⟨((' ' :: (escapeL true s.data ++ [' '])) ++ '-' :: '-' :: '>' :: ([] : List Char))
      ++ more, ?_⟩
    simp [List.append_assoc]
  | element tag attrs defaults children htag hvoid hnl hscript hstyle hattrs hch =>
    right; right; right
    obtain ⟨c0, cs, he, hc0⟩ := tagOk_head tag htag
    refine ⟨c0,
      (cs ++ (attrText o attrs (getAttrsD (defaults.getD wd) tag)).data)
        ++ '>' :: (((renderStrF o wd children).data ++ '<' :: '/' :: (tag.data ++ ['>'])) ++ more),
      ?_, (alnum_props c0 (Or.inl hc0)).2.2.2.1,
      (alnum_props c0 (Or.inl hc0)).2.2.2.2.1⟩
    rw [renderStrN_element_data, he]
    simp [List.append_assoc]

theorem tagNameOf_attrText (o : SetEnum) (attrs defattrs : List (String × Attr))
    (tag : String) (htag : tagOkB tag = true) :
    tagNameOf (tag.data ++ (attrText o attrs defattrs).data) = tag := by
  unfold attrText
  cases he : (attrStrings o attrs defattrs).isEmpty with
  | true =>
    rw [if_pos rfl]
    rw [List.isEmpty_iff.mp he]
    rw [show joinSpace [] = "" from rfl]
    rw [show (("" : String) ++ "").data = [] from rfl, List.append_nil]
    exact tagNameOf_self tag htag
  | false =>
    rw [if_neg (by simp)]
    rw [data_append]
    rw [show (" " : String).data = [' '] from rfl]
    rw [show ([' '] ++ (joinSpace (attrStrings o attrs defattrs)).data)
      = ' ' :: (joinSpace (attrStrings o attrs defattrs)).data from rfl]
    exact tagNameOf_space tag htag _

theorem emitData_nil (toks : List PTok) : emitData [] toks = toks := rfl

theorem renderStrF_cons_data (o : SetEnum) (wd : List (String × List (String × Attr)))
    (n : HNode) (rest : HForest) :
    (renderStrF o wd (.cons n rest)).data
      = (renderStrN o wd n).data ++ (renderStrF o wd rest).data := by
  rw [show renderStrF o wd (.cons n rest) = renderStrN o wd n ++ renderStrF o wd rest from rfl,
    data_append]

mutual

/-- Tokenizing the rendered string of a non-text node of the round-trip
class, in any continuation: the node's tokens come off, and scanning resumes
in text mode. -/
theorem scanNode (o : SetEnum) (wd : List (String × List (String × Attr)))
    (n : HNode) (hn : WfN wd n) (ht : isTextN n = false) :
    ∀ rest : List Char,
      scan (.data []) ((renderStrN o wd n).data ++ rest)
        = nodeToks n ++ scan (.data []) rest := by
  cases hn with
  | text s hne hamp => simp [isTextN] at ht
  | comment s =>
    intro rest
    rw [renderStrN_comment_data]
    rw [show ('<' :: '!' :: '-' :: '-' ::
        ((' ' :: (escapeL true s.data ++ [' '])) ++ '-' :: '-' :: '>' :: ([] : List Char))) ++ rest
      = '<' :: '!' :: '-' :: '-' ::
        ((' ' :: (escapeL true s.data ++ [' '])) ++ '-' :: '-' :: '>' :: rest) from by
      simp [List.append_assoc]]
    rw [show scan (.data []) ('<' :: '!' :: '-' :: '-' ::
        ((' ' :: (escapeL true s.data ++ [' '])) ++ '-' :: '-' :: '>' :: rest))
      = scan (.com []) ((' ' :: (escapeL true s.data ++ [' '])) ++ '-' :: '-' :: '>' :: rest)
      from rfl]
    rw [(scan_com_acc (' ' :: (escapeL true s.data ++ [' '])) (by
      simp only [List.mem_cons, List.mem_append, List.mem_singleton]
      rintro (hc | hc | hc)
      · exact absurd hc (by decide)
      · exact escapeL_no_gt true s.data hc
      · exact absurd hc (by decide)) [] rest).1]
    rw [show (⟨[] ++ ' ' :: (escapeL true s.data ++ [' '])⟩ : String)
        = " " ++ escape s true ++ " " from by
      refine strData_inj ?_
      rw [data_append, data_append]
      rfl]
    rfl
  | element tag attrs defaults children htag hvoid hnl hscript hstyle hattrs hch =>
    intro rest
    rw [renderStrN_element_data]
    obtain ⟨c0, cs, he, hc0⟩ := tagOk_head tag htag
    have hgt_tag : ¬ '>' ∈ tag.data := tagOk_no_gt tag htag
    have hgt_attr : ¬ '>' ∈ (attrText o attrs (getAttrsD (defaults.getD wd) tag)).data :=
      attrText_no_gt o attrs _ hattrs
    rw [show ('<' :: ((tag.data ++ (attrText o attrs (getAttrsD (defaults.getD wd) tag)).data)
        ++ '>' :: ((renderStrF o wd children).data ++ '<' :: '/' :: (tag.data ++ ['>'])))) ++ rest
      = '<' :: ((tag.data ++ (attrText o attrs (getAttrsD (defaults.getD wd) tag)).data)
        ++ '>' :: ((renderStrF o wd children).data
          ++ '<' :: '/' :: (tag.data ++ '>' :: rest))) from by
      simp [List.append_assoc]]
    rw [show scan (.data [])
        ('<' :: ((tag.data ++ (attrText o attrs (getAttrsD (defaults.getD wd) tag)).data)
          ++ '>' :: ((renderStrF o wd children).data ++ '<' :: '/' :: (tag.data ++ '>' :: rest))))
      = scan (.lt [])
          ((tag.data ++ (attrText o attrs (getAttrsD (defaults.getD wd) tag)).data)
            ++ '>' :: ((renderStrF o wd children).data ++ '<' :: '/' :: (tag.data ++ '>' :: rest)))
      from rfl]
    nth_rewrite 1 [he]
    rw [show ((c0 :: cs) ++ (attrText o attrs (getAttrsD (defaults.getD wd) tag)).data)
      = c0 :: (cs ++ (attrText o attrs (getAttrsD (defaults.getD wd) tag)).data) from rfl]
    rw [List.cons_append]
    rw [scan_lt_other [] c0 _ ((alnum_props c0 (tagOk_chars tag htag c0 (by
        rw [he]; exact List.mem_cons_self c0 cs))).2.2.2.1)
      ((alnum_props c0 (tagOk_chars tag htag c0 (by
        rw [he]; exact List.mem_cons_self c0 cs))).2.2.2.2.1)]
    rw [emitData_nil]
    rw [scan_stag_acc (cs ++ (attrText o attrs (getAttrsD (defaults.getD wd) tag)).data) (by
      simp only [List.mem_append]
      rintro (hc | hc)
      · exact hgt_tag (by rw [he]; exact List.mem_cons_of_mem c0 hc)
      · exact hgt_attr hc)]
    rw [show ([c0] ++ (cs ++ (attrText o attrs (getAttrsD (defaults.getD wd) tag)).data))
      = tag.data ++ (attrText o attrs (getAttrsD (defaults.getD wd) tag)).data from by
      rw [he]; rfl]
    rw [tagNameOf_attrText o attrs _ tag htag]
    rw [scanForest o wd children hch ('<' :: '/' :: (tag.data ++ '>' :: rest))
      (Or.inr (Or.inl ⟨tag.data ++ '>' :: rest, rfl⟩))]
    rw [show scan (.data []) ('<' :: '/' :: (tag.data ++ '>' :: rest))
      = scan (.etag []) (tag.data ++ '>' :: rest) from rfl]
    rw [scan_etag_acc tag.data hgt_tag]
    rw [show (([] : List Char) ++ tag.data) = tag.data from rfl]
    rw [tagNameOf_self tag htag]
    rw [show nodeToks (HNode.element tag attrs defaults children)
      = PTok.stag tag :: (forestToks children ++ [PTok.etag tag]) from rfl]
    simp [List.append_assoc]

/-- Tokenizing the rendered string of a forest of the round-trip class,
followed by a good boundary. -/
theorem scanForest (o : SetEnum) (wd : List (String × List (String × Attr)))
    (f : HForest) (hf : WfF wd f) :
    ∀ rest : List Char, GoodBoundary rest →
      scan (.data []) ((renderStrF o wd f).data ++ rest)
        = forestToks f ++ scan (.data []) rest := by
  cases hf with
  | nil =>
    intro rest hrest
    rfl
  | cons n rest' hn hrest' hadj =>
    intro rest hrest
    rw [renderStrF_cons_data, List.append_assoc]
    cases htn : isTextN n with
    | false =>
      rw [scanNode o wd n hn htn ((renderStrF o wd rest').data ++ rest)]
      rw [scanForest o wd rest' hrest' rest hrest]
      rw [show forestToks (.cons n rest') = nodeToks n ++ forestToks rest' from rfl]
      rw [List.append_assoc]
    | true =>
      cases hn with
      | comment s => simp [isTextN] at htn
      | element tag attrs defaults children htag hvoid hnl hscript hstyle hattrs hch =>
        simp [isTextN] at htn
      | text s hne hamp =>
        have hesc_ne : escapeL false s.data ≠ [] := by
          cases hd : s.data with
          | nil => exact absurd (strData_inj hd) hne
          | cons c cs => exact escapeL_ne_nil false c cs
        rw [show (renderStrN o wd (.text s)).data = escapeL false s.data from rfl]
        rw [scan_data_acc (escapeL false s.data) (by
            intro c hc hlt
            rw [hlt] at hc
            exact escapeL_no_lt false s.data hc)
          [] ((renderStrF o wd rest').data ++ rest)]
        rw [show (([] : List Char) ++ escapeL false s.data) = escapeL false s.data from rfl]
        have hflush : scan (.data (escapeL false s.data)) ((renderStrF o wd rest').data ++ rest)
            = emitData (escapeL false s.data) []
              ++ scan (.data []) ((renderStrF o wd rest').data ++ rest) := by
          cases hrest' with
          | nil => exact scan_data_flush (escapeL false s.data) rest hrest
          | cons n2 rest2 hn2 hrest2 hadj2 =>
            have htn2 : isTextN n2 = false := by
              rcases hadj with h | h
              · simp [isTextN] at h
              · simpa [headIsText] using h
            rw [renderStrF_cons_data, List.append_assoc]
            exact scan_data_flush (escapeL false s.data) _
              (renderStrN_boundary o wd n2 hn2 htn2 _)
        rw [hflush]
        rw [scanForest o wd rest' hrest' rest hrest]
        rw [show emitData (escapeL false s.data) [] = [.chdata ⟨escapeL false s.data⟩] from by
          unfold emitData
          rw [if_neg (by simpa using hesc_ne)]]
        rfl

end

/-! ### Build-phase lemmas: from token list to parse tree -/

theorem unescape_unescape_escape (s : String) (h : ¬ '&' ∈ s.data) :
    unescape (unescape (escape s false)) = s := by
  refine strData_inj ?_
  show unescapeL (unescapeL (escapeL false s.data)) = s.data
  have h1 := unescapeL_escapeL false s.data []
  rw [List.append_nil] at h1
  rw [show unescapeL ([] : List Char) = [] from rfl] at h1
  rw [List.append_nil] at h1
  rw [h1]
  exact unescapeL_no_amp s.data h

theorem unescape_comment_pad (s : String) :
    unescape (" " ++ escape s true ++ " ") = " " ++ s ++ " " := by
  refine strData_inj ?_
  show unescapeL ((" " ++ escape s true ++ " ").data) = (" " ++ s ++ " ").data
  simp only [data_append]
  rw [show (escape s true).data = escapeL true s.data from rfl]
  rw [show ([' '] ++ escapeL true s.data) = ' ' :: escapeL true s.data from rfl]
  rw [show (' ' :: escapeL true s.data) ++ [' '] = ' ' :: (escapeL true s.data ++ [' '])
    from rfl]
  rw [unescapeL_cons_ne ' ' _ (by decide)]
  rw [unescapeL_escapeL true s.data [' ']]
  rw [show unescapeL [' '] = [' '] from rfl]
  simp [List.append_assoc, List.singleton_append, List.cons_append]

/-- Append each node in turn to the current container. -/
def addAll (ns : List PNode) (st : BState) : BState :=
  ns.foldl (fun s n => addPNode n s) st

theorem addAll_frame : ∀ (ns : List PNode) (tag : String) (cs : List PNode)
    (fs : List BFrame) (racc : List PNode),
    addAll ns ⟨⟨tag, cs⟩ :: fs, racc⟩ = ⟨⟨tag, cs ++ ns⟩ :: fs, racc⟩ := by
  intro ns
  induction ns with
  | nil => intro tag cs fs racc; simp [addAll]
  | cons x xs ih =>
    intro tag cs fs racc
    show addAll xs ⟨⟨tag, cs ++ [x]⟩ :: fs, racc⟩ = ⟨⟨tag, cs ++ x :: xs⟩ :: fs, racc⟩
    rw [ih, List.append_assoc, List.singleton_append]

mutual

/-- Feeding the recovered tokens of a round-trip-class node to the repo's
handler dispatch appends exactly the node's parse image to the current
container. -/
theorem buildNode (wd : List (String × List (String × Attr)))
    (n : HNode) (hn : WfN wd n) :
    ∀ st : BState, (nodeToks n).foldl buildStep st = addPNode (pviewN n) st := by
  cases hn with
  | text s hne hamp =>
    intro st
    show addPNode (.ptext (unescape (unescape (escape s false)))) st
      = addPNode (pviewN (.text s)) st
    exact congrArg (fun x => addPNode (.ptext x) st) (unescape_unescape_escape s hamp)
  | comment s =>
    intro st
    show addPNode (.pcomment (unescape (" " ++ escape s true ++ " "))) st
      = addPNode (pviewN (.comment s)) st
    exact congrArg (fun x => addPNode (.pcomment x) st) (unescape_comment_pad s)
  | element tag attrs defaults children htag hvoid hnl hscript hstyle hattrs hch =>
    intro st
    obtain ⟨stack, racc⟩ := st
    rw [show nodeToks (HNode.element tag attrs defaults children)
      = PTok.stag tag :: (forestToks children ++ [PTok.etag tag]) from rfl]
    rw [show pviewN (HNode.element tag attrs defaults children)
      = PNode.pelem tag (pviewF children) from rfl]
    rw [List.foldl_cons]
    rw [show buildStep ⟨stack, racc⟩ (PTok.stag tag)
        = (⟨⟨tag, []⟩ :: stack, racc⟩ : BState) from by
      show (if is_void tag then addPNode (.pelem tag []) ⟨stack, racc⟩
        else ⟨⟨tag, []⟩ :: stack, racc⟩) = _
      rw [hvoid]
      rfl]
    rw [List.foldl_append]
    rw [buildForest wd children hch ⟨⟨tag, []⟩ :: stack, racc⟩]
    rw [show addAll (pviewF children) ⟨⟨tag, []⟩ :: stack, racc⟩
        = (⟨⟨tag, pviewF children⟩ :: stack, racc⟩ : BState) from by
      rw [addAll_frame]
      rw [List.nil_append]]
    show (if tag = tag then addPNode (.pelem tag (pviewF children)) ⟨stack, racc⟩
      else ⟨⟨tag, pviewF children⟩ :: stack, racc⟩)
      = addPNode (PNode.pelem tag (pviewF children)) ⟨stack, racc⟩
    rw [if_pos rfl]

/-- Feeding the recovered tokens of a round-trip-class forest appends the
parse images of its nodes in order. -/
theorem buildForest (wd : List (String × List (String × Attr)))
    (f : HForest) (hf : WfF wd f) :
    ∀ st : BState, (forestToks f).foldl buildStep st = addAll (pviewF f) st := by
  cases hf with
  | nil => intro st; rfl
  | cons n rest hn hrest hadj =>
    intro st
    rw [show forestToks (.cons n rest) = nodeToks n ++ forestToks rest from rfl]
    rw [List.foldl_append]
    rw [buildNode wd n hn st]
    rw [buildForest wd rest hrest (addPNode (pviewN n) st)]
    rfl

end

/-! ## Claims -/

/-- C7: for a space with `pre=[A]`, `ext=[B,C]`, `post=[D]`,
`get_transformers("ext")` returns exactly `[A,B,C,D]` and
`get_transformers("ext", extonly=True)` returns exactly `[B,C]`; in general
the `pre` chain is prepended and the `post` chain appended to every
extension-specific chain unless extension-only resolution is requested. -/
theorem get_transformers_chain_order {τ : Type} (m : String → List τ) (A B C D : τ)
    (hpre : m "pre" = [A]) (hext : m "ext" = [B, C]) (hpost : m "post" = [D]) :
    get_transformers m "ext" false = [A, B, C, D] ∧
    get_transformers m "ext" true = [B, C] ∧
    ∀ ext, get_transformers m ext false = m "pre" ++ m ext ++ m "post" ∧
      get_transformers m ext true = m ext := by
  refine ⟨?_, ?_, fun ext => ⟨rfl, rfl⟩⟩
  · simp [get_transformers, hpre, hext, hpost]
  · simp [get_transformers, hext]

theorem get_transformers_chain_order_witness :
    get_transformers
      (fun s => if s = "pre" then [1] else if s = "ext" then [2, 3]
        else if s = "post" then [4] else ([] : List Nat)) "ext" false = [1, 2, 3, 4] ∧
    get_transformers
      (fun s => if s = "pre" then [1] else if s = "ext" then [2, 3]
        else if s = "post" then [4] else ([] : List Nat)) "ext" true = [2, 3] :=
  ⟨(get_transformers_chain_order _ 1 2 3 4 (by decide) (by decide) (by decide)).1,
   (get_transformers_chain_order _ 1 2 3 4 (by decide) (by decide) (by decide)).2.1⟩

/-- The threaded-tree step actually taken by the engine loop when a
transformer succeeds. -/
theorem runChain_cons_ok {Ctx Cont E R : Type} (ctx : Ctx) (content : Cont)
    (t : Transformer Ctx Cont E R) (ts : List (Transformer Ctx Cont E R))
    (root : R) (r? : Option R) (h : t ctx content root = .ok r?) :
    runChain ctx content (t :: ts) root = runChain ctx content ts (r?.getD root) := by
  simp [runChain, h]

/-- A chain with no raising transformer runs to completion, returning the
left fold of the threaded tree. -/
theorem runChain_ok_of_chainOk {Ctx Cont E R : Type} (ctx : Ctx) (content : Cont) :
    ∀ (ts : List (Transformer Ctx Cont E R)) (root : R), chainOk ctx content ts root →
      runChain ctx content ts root = .ok (chainFold ctx content ts root)
  | [], root, _ => rfl
  | t :: ts, root, h => by
    obtain ⟨⟨r?, hr⟩, hrest⟩ := h
    rw [runChain_cons_ok ctx content t ts root r? hr]
    have hstep : (match t ctx content root with
        | .ok (some r') => r'
        | _ => root) = r?.getD root := by
      rw [hr]; cases r? <;> rfl
    rw [hstep] at hrest
    have := runChain_ok_of_chainOk ctx content ts (r?.getD root) hrest
    rw [this]
    simp [chainFold, List.foldl_cons]
    rw [hstep]

/-- The first raising transformer aborts the chain: whatever follows it is
never consulted and its error is surfaced unchanged. -/
theorem runChain_append_error {Ctx Cont E R : Type} (ctx : Ctx) (content : Cont) :
    ∀ (ts1 : List (Transformer Ctx Cont E R)) (t : Transformer Ctx Cont E R)
      (ts2 : List (Transformer Ctx Cont E R)) (root : R) (e : E),
      chainOk ctx content ts1 root →
      t ctx content (chainFold ctx content ts1 root) = .error e →
      runChain ctx content (ts1 ++ t :: ts2) root = .error e
  | [], t, ts2, root, e, _, herr => by
    simp [runChain, chainFold] at herr ⊢
    rw [herr]
  | t1 :: ts1, t, ts2, root, e, hok, herr => by
    obtain ⟨⟨r?, hr⟩, hrest⟩ := hok
    have hstep : (match t1 ctx content root with
        | .ok (some r') => r'
        | _ => root) = r?.getD root := by
      rw [hr]; cases r? <;> rfl
    rw [hstep] at hrest
    have herr' : t ctx content (chainFold ctx content ts1 (r?.getD root)) = .error e := by
      have : chainFold ctx content (t1 :: ts1) root
          = chainFold ctx content ts1 (r?.getD root) := by
        simp [chainFold, List.foldl_cons]
        rw [hstep]
      rw [this] at herr
      exact herr
    have := runChain_append_error ctx content ts1 t ts2 (r?.getD root) e hrest herr'
    rw [List.cons_append, runChain_cons_ok ctx content t1 _ root r? hr]
    exact this

/-- C4: the engine invokes the resolved transformers strictly in chain order,
threading one tree (transformer *i*'s return value is the input of
transformer *i+1*, a `None` return reuses the input tree), and the first
raised exception ends the run — no later transformer is consulted (the
conclusion holds for every `ts2`) — surfacing exactly the error raised by
the failing transformer. -/
theorem pipeline_chain_spec {Ctx Cont E R : Type} (ctx : Ctx) (content : Cont)
    (ts1 ts2 ts3 ts4 : List (Transformer Ctx Cont E R))
    (t keep step : Transformer Ctx Cont E R)
    (root r r2 r3 : R) (e : E)
    (h1 : chainOk ctx content ts1 root)
    (h2 : t ctx content (chainFold ctx content ts1 root) = .error e)
    (h3 : keep ctx content r = .ok none)
    (h4 : step ctx content r2 = .ok (some r3)) :
    runChain ctx content (ts1 ++ t :: ts2) root = .error e ∧
    runChain ctx content ts1 root = .ok (chainFold ctx content ts1 root) ∧
    runChain ctx content (keep :: ts3) r = runChain ctx content ts3 r ∧
    runChain ctx content (step :: ts4) r2 = runChain ctx content ts4 r3 := by
  refine ⟨runChain_append_error ctx content ts1 t ts2 root e h1 h2,
    runChain_ok_of_chainOk ctx content ts1 root h1,
    ?_, ?_⟩
  · rw [runChain_cons_ok ctx content keep ts3 r none h3]
    rfl
  · rw [runChain_cons_ok ctx content step ts4 r2 (some r3) h4]
    rfl

theorem pipeline_chain_spec_witness :
    runChain () ()
      [fun _ _ n => .ok (some (n + 1)), fun _ _ n => (.error (toString n) : Except String (Option Nat))]
      (0 : Nat) = .error "1" ∧
    runChain () () [fun _ _ (n : Nat) => (.ok (some (n + 1)) : Except String (Option Nat))] 0 = .ok 1 ∧
    runChain () () [fun _ _ (_ : Nat) => (.ok none : Except String (Option Nat))] 5 = .ok 5 := by
  have h := @pipeline_chain_spec Unit Unit String Nat
    () () [fun _ _ n => .ok (some (n + 1))] [] [] []
    (fun _ _ n => .error (toString n)) (fun _ _ _ => .ok none) (fun _ _ n => .ok (some (n + 1)))
    0 5 0 1 "1"
    (by exact ⟨⟨some 1, rfl⟩, trivial⟩) (by rfl) (by rfl) (by rfl)
  exact ⟨h.1, by rw [h.2.1]; rfl, h.2.2.1⟩

/-- C6 counterexample: under a `script` parent, the text `"</script>x"`
contains a `</script` opening, yet `Text.render` inserts it raw without
raising — the code only rejects the substring `"<script"`. -/
theorem text_render_script_close_unflagged :
    Text.render (some "script") "</script>x" = .ok "</script>x" ∧
    strContains "</script>x" "</script" = true :=
  ⟨rfl, rfl⟩

/-- C6 (amended): under a `script` parent the text is inserted raw and an
error is raised exactly when it contains the substring `"<script"` (an
embedded `<script` opening; a `</script` close is *not* rejected); under any
other parent the text renders HTML-escaped and never raises. -/
theorem text_render_spec (p : Option String) (s : String) (hp : p ≠ some "script") :
    (strContains s "<script" = true →
      Text.render (some "script") s = .error "bad <script> contents") ∧
    (strContains s "<script" = false → Text.render (some "script") s = .ok s) ∧
    Text.render p s = .ok (escape s false) :=
  ⟨fun h => by simp [Text.render, h],
   fun h => by simp [Text.render, h],
   by simp [Text.render, hp]⟩

theorem text_render_spec_witness :
    Text.render (some "script") "a<scriptx" = .error "bad <script> contents" ∧
    Text.render (some "script") "var x = 1;" = .ok "var x = 1;" ∧
    Text.render none "<b>" = .ok "&lt;b&gt;" := by
  refine ⟨(text_render_spec none "a<scriptx" (by decide)).1 (by rfl),
    (text_render_spec none "var x = 1;" (by decide)).2.1 (by rfl),
    ((text_render_spec none "<b>" (by decide)).2.2).trans (by rfl)⟩

theorem attrStrings_nil (o : SetEnum) : attrStrings o [] [] = [] := by
  unfold attrStrings
  rw [show ((([] : List (String × Attr)).map (·.1)).toFinset
      ∪ (([] : List (String × Attr)).map (·.1)).toFinset : Finset String) = ∅ by simp]
  rw [enum_empty]
  rfl

/-- C10: a void element whose effective attribute list is empty renders with
a space between the tag name and the closing bracket (`"<tag >"`), while a
non-void attribute-less element renders as `"<tag>"` with no extra space
(both followed by the newline suffix for tags in `NL_ELEMENTS`). -/
theorem empty_attrs_render_spacing (o : SetEnum)
    (wd : List (String × List (String × Attr))) (p : Option String) (tag : String)
    (hd : getAttrsD wd tag = []) :
    (is_void tag = true →
      renderNode o wd p (.element tag [] none .nil)
        = .ok ("<" ++ tag ++ " >" ++ nlSuffix tag)) ∧
    (is_void tag = false →
      renderNode o wd p (.element tag [] none .nil)
        = .ok ("<" ++ tag ++ "></" ++ tag ++ ">" ++ nlSuffix tag)) := by
  have ha : attrStrings o [] (getAttrsD ((none : Option _).getD wd) tag) = [] := by
    show attrStrings o [] (getAttrsD wd tag) = []
    rw [hd]
    exact attrStrings_nil o
  constructor
  · intro h
    simp only [renderNode, ha, h, if_pos]
    rw [show joinSpace [] = "" from rfl]
    congr 1
    simp [String.append_assoc, String.append_empty]
  · intro h
    simp only [renderNode, ha, h]
    rw [if_neg (by simp)]
    simp only [renderForest]
    rw [show joinSpace [] = "" from rfl]
    congr 1
    simp [List.isEmpty]
    simp [String.append_assoc, String.append_empty]

theorem empty_attrs_render_spacing_witness :
    is_void "area" = true ∧ is_void "span" = false ∧
    renderNode canonEnum [] none (.element "area" [] none .nil) = .ok "<area >" ∧
    renderNode canonEnum [] none (.element "span" [] none .nil) = .ok "<span></span>" := by
  refine ⟨rfl, rfl, ?_, ?_⟩
  · exact ((empty_attrs_render_spacing canonEnum [] none "area" rfl).1 (by rfl)).trans (by rfl)
  · exact ((empty_attrs_render_spacing canonEnum [] none "span" rfl).2 (by rfl)).trans (by rfl)

/-- C8 counterexample: `ParentNode.add` accepts a child for a void element
without any validation or error, and rendering the void element silently
drops the child — it appears nowhere in the output and no error is
surfaced. -/
theorem void_children_silently_dropped :
    ParentNode.add .nil [.str "x"] = .cons (.text "x") .nil ∧
    renderNode canonEnum [] none (.element "br" [] none (.cons (.text "x") .nil))
      = .ok "<br >\n" ∧
    strContains "<br >\n" "x" = false :=
  ⟨rfl, rfl, rfl⟩

/-- C8 (amended): every void element renders as an unclosed tag with none of
its children rendered and no error surfaced, whatever the children are. -/
theorem render_void_spec (o : SetEnum) (wd : List (String × List (String × Attr)))
    (p : Option String) (tag : String) (attrs : List (String × Attr))
    (defaults : Option (List (String × List (String × Attr)))) (children : HForest)
    (h : is_void tag = true) :
    renderNode o wd p (.element tag attrs defaults children)
      = .ok ("<" ++ tag ++ " "
          ++ joinSpace (attrStrings o attrs (getAttrsD (defaults.getD wd) tag))
          ++ ">" ++ nlSuffix tag) := by
  simp [renderNode, h]

theorem render_void_spec_witness :
    renderNode canonEnum [] none (.element "br" [] none (.cons (.text "dropped") .nil))
      = .ok "<br >\n" :=
  (render_void_spec canonEnum [] none "br" [] none _ rfl).trans (by rfl)

/-- C1 counterexample: with a set-iteration order that enumerates
`{"a", "b"}` as `["b", "a"]` (a legitimate CPython behaviour, since set order
is hash-dependent), the element value `"a"` merged with the default value
`"b"` renders as `class="b a"`, not `class="a b"` — neither first-seen
storage order nor element-before-default render order is guaranteed. -/
theorem attr_render_order_not_guaranteed :
    Attr.render revEnum ⟨"class", {"a"}⟩ (some ⟨"class", {"b"}⟩) = "class=\"b a\"" ∧
    ("class=\"b a\"" : String) ≠ "class=\"a b\"" :=
  ⟨rfl, by decide⟩

/-- C1 (amended): values are stored deduplicated as an (unordered) set; when
an element attribute and a per-tag default share a name, render emits a
single merged attribute whose value list enumerates exactly the union of the
element-declared and default values (minus empty strings), without
duplicates, each value HTML-escaped — in an unspecified order. -/
theorem attr_merge_set_semantics (o : SetEnum)
    (wd : List (String × List (String × Attr))) (p : Option String)
    (tag n : String) (V W : Finset String)
    (hwd : getAttrsD wd tag = [(n, ⟨n, W⟩)])
    (hv : is_void tag = false)
    (hne : (V ∪ W).filter (· ≠ "") ≠ ∅) :
    attrStrings o [(n, ⟨n, V⟩)] (getAttrsD wd tag)
      = [Attr.render o ⟨n, V⟩ (some ⟨n, W⟩)] ∧
    (∃ l : List String,
      Attr.render o ⟨n, V⟩ (some ⟨n, W⟩)
        = n ++ "=\"" ++ joinSpace (l.map (fun v => escape v true)) ++ "\"" ∧
      l.Nodup ∧ ∀ x, x ∈ l ↔ x ∈ V ∪ W ∧ x ≠ "") ∧
    renderNode o wd p (.element tag [(n, ⟨n, V⟩)] none .nil)
      = .ok ("<" ++ tag ++ " " ++ Attr.render o ⟨n, V⟩ (some ⟨n, W⟩)
          ++ "></" ++ tag ++ ">" ++ nlSuffix tag) := by
  have hsingle : attrStrings o [(n, ⟨n, V⟩)] (getAttrsD wd tag)
      = [Attr.render o ⟨n, V⟩ (some ⟨n, W⟩)] := by
    rw [hwd]
    unfold attrStrings
    rw [show (([(n, (⟨n, V⟩ : Attr))].map (·.1)).toFinset
        ∪ ([(n, (⟨n, W⟩ : Attr))].map (·.1)).toFinset : Finset String) = {n} by simp]
    rw [enum_singleton]
    simp [lookupA]
  refine ⟨hsingle, ?_, ?_⟩
  · unfold Attr.render
    rw [if_neg hne]
    refine ⟨o.enum ((V ∪ W).filter (· ≠ "")), rfl, o.nodup _, fun x => ?_⟩
    rw [o.mem]
    simp [Finset.mem_filter]
  · simp only [renderNode, hv]
    rw [if_neg (by simp)]
    simp only [Option.getD, hsingle]
    rw [show renderForest o wd (some tag) .nil = .ok "" from rfl]
    rw [show joinSpace [Attr.render o ⟨n, V⟩ (some ⟨n, W⟩)] = Attr.render o ⟨n, V⟩ (some ⟨n, W⟩) from rfl]
    rw [show ([Attr.render o ⟨n, V⟩ (some ⟨n, W⟩)].isEmpty) = false from rfl]
    simp [String.append_assoc, String.append_empty]

theorem attr_merge_set_semantics_witness :
    renderNode canonEnum [("p", [("class", ⟨"class", {"b"}⟩)])] none
      (.element "p" [("class", ⟨"class", {"a"}⟩)] none .nil)
      = .ok "<p class=\"a b\"></p>\n" := by
  have h := attr_merge_set_semantics canonEnum [("p", [("class", ⟨"class", {"b"}⟩)])]
    none "p" "class" {"a"} {"b"} rfl rfl (by decide)
  exact h.2.2.trans (by rfl)

/-- C5 counterexample: a stray end-tag does not universally leave
`isWellFormed()` reporting `false`.  Feeding `"</div>"` hits the
Root-sentinel branch of `handle_endtag` (the end-tag is ignored, the state
unchanged), yet the final open-element stack is the sentinel alone and
`is_valid()` reports `true`; likewise `"<div></span></div>"` ignores the
mismatched `</span>` inside the open `div`, still closes the `div`, and ends
well-formed with `is_valid() == true`. -/
theorem parser_stray_endtag_wellformed :
    buildStep ⟨[], []⟩ (.etag "div") = ⟨[], []⟩ ∧
    parseHTML "</div>" = ([], true) ∧
    parseHTML "<div></span></div>" = ([.pelem "div" []], true) :=
  ⟨rfl, rfl, rfl⟩

/-- C5 (amended): a stray end-tag — seen when the open-element stack top is
the `Root` sentinel (empty stack) or carries a different tag — is ignored:
the state (stack included) is unchanged and parsing continues (the handler
is total; the source prints a warning and returns).  `isWellFormed()`
afterwards reports `false` exactly when opened elements remain unclosed at
the end of input (`len(stack) == 1` fails), not after every stray end-tag;
concretely, `"<div><span>text</div>"` parses without raising into a tree
containing the text, with the unclosed `span` leaving `is_valid()`
reporting `false`. -/
theorem parser_endtag_recovery (st : BState) (t : String)
    (h : st.stack = [] ∨ ∃ f fs, st.stack = f :: fs ∧ t ≠ f.tag) :
    buildStep st (.etag t) = st ∧
    parseHTML "<div><span>text</div>"
      = ([.pelem "div" [.pelem "span" [.ptext "text"]]], false) ∧
    (∀ s : String,
      (parseHTML s).2
        = ((scan (.data []) s.data).foldl buildStep ⟨[], []⟩).stack.isEmpty) := by
  refine ⟨?_, rfl, fun s => rfl⟩
  rcases st with ⟨stack, racc⟩
  rcases h with h | ⟨f, fs, h, hne⟩
  · simp only at h
    subst h
    rfl
  · simp only at h
    subst h
    simp [buildStep, hne]

theorem parser_endtag_recovery_witness :
    buildStep ⟨[⟨"span", [.ptext "text"]⟩, ⟨"div", []⟩], []⟩ (.etag "div")
      = ⟨[⟨"span", [.ptext "text"]⟩, ⟨"div", []⟩], []⟩ ∧
    parseHTML "<div><span>text</div>"
      = ([.pelem "div" [.pelem "span" [.ptext "text"]]], false) ∧
    (parseHTML "<div><span>text</div>").2
      = ((scan (.data []) "<div><span>text</div>".data).foldl
          buildStep ⟨[], []⟩).stack.isEmpty := by
  have h := parser_endtag_recovery ⟨[⟨"span", [.ptext "text"]⟩, ⟨"div", []⟩], []⟩ "div"
    (.inr ⟨_, _, rfl, by decide⟩)
  exact ⟨h.1, h.2.1, h.2.2 "<div><span>text</div>"⟩

set_option maxRecDepth 10000 in
/-- C3 (code bug in the source): the `decorate` transformer patches
module-level singleton fragments per request.  Request 1 supplies
`brand_name="X"`; request 2 supplies nothing, yet its rendered page contains
`"X"` — carried over through the mutated `BRAND_NAME_TEXT` singleton — while
the same request 2 run from a fresh module state does not contain `"X"`.
Sequential runs already exhibit the cross-request leakage; concurrency only
widens it. -/
theorem decorate_singleton_contamination :
    strContains (okOr "" (Root.render canonEnum [] (HForest.ofList
      (decorMain (decorMain initDecorState { brand_name := some "X" } [.text "page one"]).1
        {} [.text "page two"]).2))) "X" = true ∧
    strContains (okOr "" (Root.render canonEnum [] (HForest.ofList
      (decorMain initDecorState {} [.text "page two"]).2))) "X" = false :=
  ⟨rfl, rfl⟩

/-! ### C9: registry effects of rendering -/

theorem get_attrs_snd (wd : List (String × List (String × Attr))) (tag : String) :
    (Defaults.get_attrs wd tag).2 = getAttrsD wd tag := by
  unfold Defaults.get_attrs getAttrsD
  cases lookupTag wd tag <;> rfl

theorem get_attrs_extends (wd : List (String × List (String × Attr))) (tag : String) :
    ∃ ks : List String,
      (Defaults.get_attrs wd tag).1
        = wd ++ ks.map (fun k => (k, ([] : List (String × Attr)))) := by
  unfold Defaults.get_attrs
  cases lookupTag wd tag with
  | some attrs => exact ⟨[], by simp⟩
  | none => exact ⟨[tag], by simp⟩

theorem getAttrsD_append_empties (wd : List (String × List (String × Attr)))
    (ks : List String) (t : String) :
    getAttrsD (wd ++ ks.map (fun k => (k, ([] : List (String × Attr))))) t
      = getAttrsD wd t := by
  unfold getAttrsD lookupTag
  rw [List.find?_append]
  cases h : List.find? (fun p => p.1 == t) wd with
  | some x => simp [h, Option.or]
  | none =>
    simp only [h, Option.none_or]
    cases h2 : List.find? (fun p => p.1 == t)
        (ks.map (fun k => (k, ([] : List (String × Attr))))) with
    | none => simp [h2]
    | some x =>
      have hx := List.mem_of_find?_eq_some h2
      simp only [List.mem_map] at hx
      obtain ⟨k, _, hk⟩ := hx
      simp [h2, ← hk]

mutual

theorem renderNodeST_extends (o : SetEnum) (p : Option String)
    (wd : List (String × List (String × Attr))) (n : HNode) (s : String)
    (wd' : List (String × List (String × Attr)))
    (h : renderNodeST o p wd n = .ok (s, wd')) :
    ∃ ks : List String,
      wd' = wd ++ ks.map (fun k => (k, ([] : List (String × Attr)))) := by
  cases n with
  | text s0 =>
    simp only [renderNodeST] at h
    cases htr : Text.render p s0 with
    | error e => rw [htr] at h; simp [Except.map] at h
    | ok v =>
      rw [htr] at h
      simp only [Except.map, Except.ok.injEq, Prod.mk.injEq] at h
      exact ⟨[], by simp [← h.2]⟩
  | raw s0 =>
    simp only [renderNodeST, Except.ok.injEq, Prod.mk.injEq] at h
    exact ⟨[], by simp [← h.2]⟩
  | comment s0 =>
    simp only [renderNodeST, Except.ok.injEq, Prod.mk.injEq] at h
    exact ⟨[], by simp [← h.2]⟩
  | element tag attrs defaults children =>
    cases defaults with
    | some dl =>
      simp only [renderNodeST] at h
      by_cases hv : is_void tag = true
      · rw [if_pos hv] at h
        simp only [Except.ok.injEq, Prod.mk.injEq] at h
        exact ⟨[], by simp [← h.2]⟩
      · rw [if_neg hv] at h
        cases hf : renderForestST o (some tag) wd children with
        | error e => rw [hf] at h; simp at h
        | ok pr =>
          obtain ⟨body, wd2⟩ := pr
          rw [hf] at h
          simp only [Except.ok.injEq, Prod.mk.injEq] at h
          obtain ⟨ks2, hks2⟩ := renderForestST_extends o (some tag) wd children body wd2 hf
          exact ⟨ks2, by rw [← h.2, hks2]⟩
    | none =>
      simp only [renderNodeST] at h
      by_cases hv : is_void tag = true
      · rw [if_pos hv] at h
        simp only [Except.ok.injEq, Prod.mk.injEq] at h
        rw [← h.2]
        exact get_attrs_extends wd tag
      · rw [if_neg hv] at h
        cases hf : renderForestST o (some tag) (Defaults.get_attrs wd tag).1 children with
        | error e => rw [hf] at h; simp at h
        | ok pr =>
          obtain ⟨body, wd2⟩ := pr
          rw [hf] at h
          simp only [Except.ok.injEq, Prod.mk.injEq] at h
          obtain ⟨ks1, hks1⟩ := get_attrs_extends wd tag
          obtain ⟨ks2, hks2⟩ := renderForestST_extends o (some tag)
            (Defaults.get_attrs wd tag).1 children body wd2 hf
          refine ⟨ks1 ++ ks2, ?_⟩
          rw [← h.2, hks2, hks1]
          simp [List.append_assoc]

theorem renderForestST_extends (o : SetEnum) (p : Option String)
    (wd : List (String × List (String × Attr))) (f : HForest) (s : String)
    (wd' : List (String × List (String × Attr)))
    (h : renderForestST o p wd f = .ok (s, wd')) :
    ∃ ks : List String,
      wd' = wd ++ ks.map (fun k => (k, ([] : List (String × Attr)))) := by
  cases f with
  | nil =>
    simp only [renderForestST, Except.ok.injEq, Prod.mk.injEq] at h
    exact ⟨[], by simp [← h.2]⟩
  | cons n rest =>
    simp only [renderForestST] at h
    cases hn : renderNodeST o p wd n with
    | error e => rw [hn] at h; simp at h
    | ok pr1 =>
      obtain ⟨s1, wd1⟩ := pr1
      rw [hn] at h
      dsimp only at h
      cases hr : renderForestST o p wd1 rest with
      | error e => rw [hr] at h; simp at h
      | ok pr2 =>
        obtain ⟨s2, wd2⟩ := pr2
        rw [hr] at h
        simp only [Except.ok.injEq, Prod.mk.injEq] at h
        obtain ⟨ks1, hks1⟩ := renderNodeST_extends o p wd n s1 wd1 hn
        obtain ⟨ks2, hks2⟩ := renderForestST_extends o p wd1 rest s2 wd2 hr
        refine ⟨ks1 ++ ks2, ?_⟩
        rw [← h.2, hks2, hks1]
        simp [List.append_assoc]

end

/-- C9 counterexample: rendering an element whose tag has no registry entry
*adds* an entry: `Defaults.get_attrs` is a `setdefault`, so rendering `<p>`
against the empty registry leaves the registry with key `"p"`. -/
theorem defaults_registry_gains_key :
    renderNodeST canonEnum none [] (.element "p" [] none .nil)
      = .ok ("<p></p>\n", [("p", [])]) ∧
    Defaults.keys [("p", [])] = ["p"] ∧
    Defaults.keys ([] : List (String × List (String × Attr))) = [] :=
  ⟨rfl, rfl, rfl⟩

/-- C9 (amended): rendering never changes the attribute *content* of the
registry — every tag reads the same attribute dict before and after (an
absent tag reading as empty) — but it may append empty placeholder entries
for looked-up tags that had no entry; no existing entry is modified or
removed and no non-empty entry is added. -/
theorem render_registry_content_preserved (o : SetEnum) (p : Option String)
    (wd : List (String × List (String × Attr))) (n : HNode) (s : String)
    (wd' : List (String × List (String × Attr)))
    (h : renderNodeST o p wd n = .ok (s, wd')) :
    (∀ t, getAttrsD wd' t = getAttrsD wd t) ∧
    ∃ ks : List String,
      wd' = wd ++ ks.map (fun k => (k, ([] : List (String × Attr)))) := by
  obtain ⟨ks, hks⟩ := renderNodeST_extends o p wd n s wd' h
  exact ⟨fun t => by rw [hks]; exact getAttrsD_append_empties wd ks t, ⟨ks, hks⟩⟩

theorem render_registry_content_preserved_witness :
    getAttrsD [("p", [])] "div" = getAttrsD [] "div" ∧
    ∃ ks : List String,
      ([("p", [])] : List (String × List (String × Attr)))
        = [] ++ ks.map (fun k => (k, ([] : List (String × Attr)))) := by
  have h := render_registry_content_preserved canonEnum none []
    (.element "p" [] none .nil) "<p></p>\n" [("p", [])] rfl
  exact ⟨h.1 "div", h.2⟩

end Rudi
